import Mathlib

/-!
Shallow embedding of `src/rss_manager.py`: a podcast episode pipeline
(ingest, clean, tag, validate, fix, export) over a persistent store of
episode records keyed by guid.  Python's dynamically-typed JSON payloads
are modelled by the inductive `JVal`; Python dicts are association lists
preserving insertion order; operations that can raise a Python exception
return `Except String`.
-/

/-- A Python/JSON value as handled by `rss_manager.py` (output of
`json.loads`, content of the `tags` field).  Python booleans are a
distinct constructor but — as in Python, where `bool` is a subclass of
`int` — they satisfy the `isinstance(x, int)` test (see `isIntInstance`).
Floats are carried opaquely by their literal text: the program never
performs arithmetic on them, it only type-tests and compares them, and a
float is never equal to a string or used as a dict. -/
inductive JVal where
  | null : JVal
  | bool (b : Bool) : JVal
  | int (n : Int) : JVal
  | float (lit : String) : JVal
  | str (s : String) : JVal
  | arr (xs : List JVal) : JVal
  | obj (fields : List (String × JVal)) : JVal

/-- Fields of a Python dict, in insertion order (Python 3.7+ dicts keep
insertion order; `rss_manager.py` relies on nothing more). -/
abbrev Obj := List (String × JVal)

/-- Python `k in d` for a dict `d`. -/
def hasKey (fs : Obj) (k : String) : Bool :=
  fs.any (fun p => p.1 == k)

/-- Python `d[k]` / `d.get(k)` for a dict: first binding of `k`. -/
def objGet (fs : Obj) (k : String) : Option JVal :=
  (fs.find? (fun p => p.1 == k)).map (fun p => p.2)

/-- Python `d[k] = v`: replace the value in place if the key exists
(keeping its position), otherwise append the new binding. -/
def objSet (fs : Obj) (k : String) (v : JVal) : Obj :=
  match fs with
  | [] => [(k, v)]
  | (k', v') :: rest =>
      if k' == k then (k, v) :: rest else (k', v') :: objSet rest k v

/-- Python hashability of a JSON value: lists and dicts are unhashable
(so `set(...)` raises `TypeError` on them); everything else is hashable. -/
def hashable : JVal → Bool
  | .arr _ => false
  | .obj _ => false
  | _ => true

/-- Python `isinstance(v, int)`.  True for ints and — because Python's
`bool` is a subclass of `int` — for booleans, false for everything else. -/
def isIntInstance : JVal → Bool
  | .int _ => true
  | .bool _ => true
  | _ => false

/-- Python `isinstance(v, list)`. -/
def isListInstance : JVal → Bool
  | .arr _ => true
  | _ => false

/-- Python `isinstance(v, str)`. -/
def isStrInstance : JVal → Bool
  | .str _ => true
  | _ => false

/-- Whether `v` is a dict (the only type on which `validate_episode_tags`
and `fix` do not raise). -/
def isObjVal : JVal → Bool
  | .obj _ => true
  | _ => false

/-- Python `v is None`. -/
def isNullVal : JVal → Bool
  | .null => true
  | _ => false

/-- The list content of a value known to be a list (used only under an
`isListInstance` test, mirroring Python using the value directly after
`isinstance(v, list)`). -/
def getArr : JVal → List JVal
  | .arr xs => xs
  | _ => []

/-- The string content of a value known to be a string (used only under
an `isStrInstance` test). -/
def getStr : JVal → String
  | .str s => s
  | _ => ""

/-- Python `v == t` between a JSON value and a taxonomy tag string:
only the equal string compares equal (ints, bools, floats, None never
equal a `str`). -/
def eqStr (v : JVal) (t : String) : Bool :=
  match v with
  | .str s => s == t
  | _ => false

/-- Membership of a value in a taxonomy category (`f in taxonomy[cat]` /
the set difference in `validate_episode_tags`). -/
def memberOf (v : JVal) (members : List String) : Bool :=
  members.any (fun t => eqStr v t)

/-- One episode record as stored in `state.json` under `episodes[guid]`.
`tags = JVal.null` models Python `None` (the field is set to `None` at
ingestion and `episode.pop("tags")` makes `episode.get("tags")` return
`None` again, indistinguishable to every reader in the program). -/
structure Episode where
  guid : String
  title : String
  description : String
  published_date : String
  audio_url : Option String
  cleaned_description : Option String
  tags : JVal
  ingested_at : String
  cleaned_at : Option String := none
  tagged_at : Option String := none

/-- The episode store: the `episodes` mapping of `state.json`, keyed by
guid, in insertion order. -/
abbrev EpStore := List (String × Episode)

/-- Python `guid in episodes`. -/
def storeContains (st : EpStore) (g : String) : Bool :=
  st.any (fun p => p.1 == g)

/-- Python `episodes.get(guid)`. -/
def storeLookup (st : EpStore) (g : String) : Option Episode :=
  (st.find? (fun p => p.1 == g)).map (fun p => p.2)

/-- The taxonomy: three fixed category names, each mapped to its list of
permitted tag strings (`DEFAULT_TAXONOMY` / `taxonomy.json`). -/
structure Taxonomy where
  format : List String
  theme : List String
  track : List String

/-- `taxonomy[category]` for the three category names used by the code. -/
def taxOf (tax : Taxonomy) (cat : String) : List String :=
  if cat == "Format" then tax.format
  else if cat == "Theme" then tax.theme
  else tax.track

/-- `DEFAULT_TAXONOMY` from `rss_manager.py`. -/
def defaultTaxonomy : Taxonomy where
  format := [
    "Series Episodes",
    "Standalone Episodes",
    "RIHC Series"]
  theme := [
    "Ancient & Classical Civilizations",
    "Medieval & Renaissance Europe",
    "Empire, Colonialism & Exploration",
    "Modern Political History & Leadership",
    "Military History & Battles",
    "Cultural, Social & Intellectual History",
    "Science, Technology & Economic History",
    "Religious, Ideological & Philosophical History",
    "Historical Mysteries, Conspiracies & Scandals",
    "Regional & National Histories"]
  track := [
    "Roman Track",
    "Medieval & Renaissance Track",
    "Colonialism & Exploration Track",
    "American History Track",
    "Military & Battles Track",
    "Modern Political History Track",
    "Cultural & Social History Track",
    "Science, Technology & Economic History Track",
    "Religious & Ideological History Track",
    "Historical Mysteries & Conspiracies Track",
    "British History Track",
    "Global Empires Track",
    "World Wars Track",
    "Ancient Civilizations Track",
    "Regional Spotlight: Latin America Track",
    "Regional Spotlight: Asia & the Middle East Track",
    "Regional Spotlight: Europe Track",
    "Regional Spotlight: Africa Track",
    "Historical Figures Track",
    "The RIHC Bonus Track",
    "Archive Editions Track",
    "Contemporary Issues Through History Track"]

/-- Whitespace characters split on by Python `str.split()` / stripped by
`str.strip()` (the six ASCII whitespace characters). -/
def pyIsSpace (c : Char) : Bool :=
  c == ' ' || c == '\t' || c == '\n' || c == '\r' || c == '\x0b' || c == '\x0c'

/-- Python `s.strip()`: drop leading and trailing whitespace. -/
def pyStrip (s : String) : String :=
  String.mk (((s.data.dropWhile pyIsSpace).reverse.dropWhile pyIsSpace).reverse)

/-- Python `title[:60]`. -/
def pyTake60 (s : String) : String :=
  String.mk (s.data.take 60)

/-- Helper for the regex `<[^<]+?>` of `clean_episode`: given the
characters after the first candidate character of `[^<]+?`, find the
first `>` not preceded by a `<`; return the remainder after it. -/
def tagEnd : List Char → Option (List Char)
  | [] => none
  | c :: rest =>
      if c == '<' then none
      else if c == '>' then some rest
      else tagEnd rest

/-- Python `re.sub(r"<[^<]+?>", "", text)`: scan left to right; at each
`<`, match the shortest run of one-or-more non-`<` characters followed by
`>` and delete it; on no match keep the character and continue one
position later.  Fuel-based so that it reduces definitionally
(`fuel = length + 1` always suffices: every step consumes at least one
character). -/
def stripTagsF : Nat → List Char → List Char
  | 0, cs => cs
  | _ + 1, [] => []
  | f + 1, c :: rest =>
      if c == '<' then
        match rest with
        | [] => ['<']
        | c2 :: rest2 =>
            if c2 == '<' then '<' :: stripTagsF f rest
            else
              match tagEnd rest2 with
              | some after => stripTagsF f after
              | none => '<' :: stripTagsF f rest
      else c :: stripTagsF f rest

/-- Does `pat` occur at the head of `cs`? -/
def startsWithChars : List Char → List Char → Bool
  | [], _ => true
  | _ :: _, [] => false
  | p :: ps, c :: cs => p == c && startsWithChars ps cs

/-- Python `text.replace(pat, repl)`: replace every non-overlapping
occurrence left to right; replacement text is not rescanned. -/
def replaceSubF : Nat → List Char → List Char → List Char → List Char
  | 0, _, _, cs => cs
  | _ + 1, _, _, [] => []
  | f + 1, pat, repl, c :: rest =>
      if startsWithChars pat (c :: rest) then
        repl ++ replaceSubF f pat repl ((c :: rest).drop pat.length)
      else c :: replaceSubF f pat repl rest

/-- The five sequential `.replace` calls of `clean_episode`:
`&amp;` to `&`, `&lt;` to `<`, `&gt;` to `>`, `&quot;` to `"`,
`&#39;` to the apostrophe. -/
def entityDecode (cs : List Char) : List Char :=
  let r := fun (pat repl : List Char) (xs : List Char) =>
    replaceSubF (xs.length + 1) pat repl xs
  r ['&', '#', '3', '9', '\x27'] ['\x27']
    (r "&quot;".data "\"".data
      (r "&gt;".data ">".data
        (r "&lt;".data "<".data
          (r "&amp;".data "&".data cs))))

/-- Python `text.split()`: split on runs of whitespace, discarding empty
words (so leading/trailing whitespace produces nothing). -/
def splitWsF : Nat → List Char → List (List Char)
  | 0, _ => []
  | f + 1, cs =>
      match cs.dropWhile pyIsSpace with
      | [] => []
      | c :: rest =>
          ((c :: rest).takeWhile (fun d => !pyIsSpace d)) ::
            splitWsF f ((c :: rest).dropWhile (fun d => !pyIsSpace d))

/-- Python `" ".join(text.split())`. -/
def normalizeWs (cs : List Char) : List Char :=
  List.intercalate [' '] (splitWsF (cs.length + 1) cs)

/-- The deterministic markup-stripping part of `clean_episode`:
`re.sub(r"<[^<]+?>", "", description)`, the five entity replacements,
then `" ".join(text.split())`. -/
def pyCleanText (s : String) : String :=
  String.mk (normalizeWs (entityDecode (stripTagsF (s.data.length + 1) s.data)))

/-- One `item` element of the fetched feed, as read by `ingest`:
`none` models a missing child element or a child element with no text. -/
structure FeedItem where
  guid : Option String
  title : Option String
  description : Option String
  pubDate : Option String
  enclosureUrl : Option String

/-- The guid `ingest` uses for an item: skip (`none`) when the guid
element is missing or its text is empty (falsy), otherwise the stripped
text. -/
def usableGuid (item : FeedItem) : Option String :=
  match item.guid with
  | none => none
  | some t => if t == "" then none else some (pyStrip t)

/-- The fresh episode record `ingest` inserts for a new guid. -/
def mkEpisode (now : String) (g : String) (item : FeedItem) : Episode where
  guid := g
  title := item.title.getD ""
  description := item.description.getD ""
  published_date := item.pubDate.getD ""
  audio_url := item.enclosureUrl
  cleaned_description := none
  tags := JVal.null
  ingested_at := now

/-- The merge loop of `ingest`: for each feed item in order, skip items
without a usable guid, skip guids already in the store, and insert a
fresh episode otherwise, counting insertions. -/
def ingestGo (now : String) : List FeedItem → EpStore → EpStore × Nat
  | [], st => (st, 0)
  | item :: rest, st =>
      match usableGuid item with
      | none => ingestGo now rest st
      | some g =>
          if storeContains st g then ingestGo now rest st
          else
            let p := ingestGo now rest (st ++ [(g, mkEpisode now g item)])
            (p.1, p.2 + 1)

/-- The Ingestion Merger (`ingest`) on a feed snapshot: the updated
store and the reported count of newly inserted episodes.  The feed fetch
and XML walk are the external collaborator; `feed` is its output. -/
def ingestStore (now : String) (feed : List FeedItem) (st : EpStore) : EpStore × Nat :=
  ingestGo now feed st

/-- The four required keys of a tag assignment
(`required = {"Format", "Theme", "Track", "episode_number"}`). -/
def requiredKeys : List String := ["Format", "Theme", "Track", "episode_number"]

/-- One validation error appended by `validate_episode_tags`, abstracted
from its message string to the condition it reports: `missingFields`
(one error listing every absent required key), `notAList cat`
(`"{cat} must be a list"`), `invalidTags cat`
(`"Invalid {cat} tags: ..."`), `cannotBeEmpty cat`
(`"{cat} cannot be empty"`), `badEpisodeNumber`
(`"episode_number must be int or null"`). -/
inductive Violation where
  | missingFields (ks : List String)
  | notAList (cat : String)
  | invalidTags (cat : String)
  | cannotBeEmpty (cat : String)
  | badEpisodeNumber
deriving DecidableEq

/-- The per-category body of `validate_episode_tags`: when `cat` is a
key, a non-list value yields `notAList`; a list value is checked with
`set(cat_tags) - set(taxonomy[cat])` — which raises `TypeError` when the
list contains an unhashable entry (a list or dict) — and then with the
emptiness test; both resulting errors are reported independently, the
invalid-tags error first, in code order. -/
def checkCat (fs : Obj) (cat : String) (members : List String) : Except String (List Violation) :=
  if hasKey fs cat then
    match objGet fs cat with
    | none => .ok []
    | some v =>
        if isListInstance v then
          let xs := getArr v
          if xs.any (fun x => !hashable x) then
            .error "TypeError: unhashable type"
          else
            .ok ((if xs.any (fun x => !memberOf x members) then [Violation.invalidTags cat] else []) ++
                 (if xs.isEmpty then [Violation.cannotBeEmpty cat] else []))
        else .ok [Violation.notAList cat]
  else .ok []

/-- The `episode_number` check of `validate_episode_tags`: an error iff
the key is present with a value that is neither `None` nor an `int`
instance (Python booleans are `int` instances). -/
def checkNum (fs : Obj) : List Violation :=
  if hasKey fs "episode_number" then
    match objGet fs "episode_number" with
    | none => []
    | some v =>
        if isNullVal v then []
        else if isIntInstance v then [] else [Violation.badEpisodeNumber]
  else []

/-- The missing-required-fields error of `validate_episode_tags`
(`required - set(tags.keys())`): one error listing every absent required
key, or nothing when none is absent. -/
def missingErrs (fs : Obj) : List Violation :=
  if (requiredKeys.filter fun k => !hasKey fs k).isEmpty then []
  else [Violation.missingFields (requiredKeys.filter fun k => !hasKey fs k)]

/-- `validate_episode_tags(tags, taxonomy)`.  On a non-dict `tags` the
very first statement (`set(tags.keys())`) raises `AttributeError`, so the
result is an `Except`: `.ok errs` is the returned error list (in code
order: missing fields, then Format, Theme, Track category errors, then
the episode-number error), `.error` a raised exception. -/
def validate_episode_tags (tags : JVal) (tax : Taxonomy) : Except String (List Violation) :=
  match tags with
  | .obj fs =>
      match checkCat fs "Format" tax.format with
      | .error m => .error m
      | .ok e1 =>
          match checkCat fs "Theme" tax.theme with
          | .error m => .error m
          | .ok e2 =>
              match checkCat fs "Track" tax.track with
              | .error m => .error m
              | .ok e3 => .ok (missingErrs fs ++ e1 ++ e2 ++ e3 ++ checkNum fs)
  | _ => .error "AttributeError: object has no attribute keys"

/-- One entry of the `episode_fixes` list recorded by `fix`, abstracted
from its message string to the correction it describes. -/
inductive FixNote where
  | addedEpisodeNumber
  | addedEmptyCat (cat : String)
  | convertedFormatToList
  | removedInvalidFormatTags
  | convertedToList (cat : String)
  | removedInvalidCatTags (cat : String)
  | convertedEpisodeNumberToInt
  | resetInvalidEpisodeNumber
  | deletedAllTags (errs : List Violation)
deriving DecidableEq

/-- `fix`, step 1: `if "episode_number" not in tags: tags["episode_number"] = None`. -/
def fixAddNum (fs : Obj) : Obj × List FixNote :=
  if hasKey fs "episode_number" then (fs, [])
  else (objSet fs "episode_number" JVal.null, [FixNote.addedEpisodeNumber])

/-- `fix`, step 2 (per category): `if category not in tags: tags[category] = []`. -/
def fixAddCat (cat : String) (p : Obj × List FixNote) : Obj × List FixNote :=
  if hasKey p.1 cat then p
  else (objSet p.1 cat (JVal.arr []), p.2 ++ [FixNote.addedEmptyCat cat])

/-- `fix`, Format block: coerce a non-list to `[formats]` when it is a
string and to `["Standalone Episodes"]` otherwise; then unconditionally
filter to taxonomy members, and when entries were removed replace with
the filtered list, or with `["Standalone Episodes"]` if nothing survived. -/
def fixFormat (tax : Taxonomy) (p : Obj × List FixNote) : Obj × List FixNote :=
  if hasKey p.1 "Format" then
    match objGet p.1 "Format" with
    | none => p
    | some fv =>
        let coerced : List JVal × Obj × List FixNote :=
          if isListInstance fv then (getArr fv, p.1, p.2)
          else if isStrInstance fv then
            ([fv], objSet p.1 "Format" (.arr [fv]), p.2 ++ [FixNote.convertedFormatToList])
          else
            ([JVal.str "Standalone Episodes"],
             objSet p.1 "Format" (.arr [JVal.str "Standalone Episodes"]),
             p.2 ++ [FixNote.convertedFormatToList])
        let xs := coerced.1
        let valid := xs.filter (fun x => memberOf x tax.format)
        if valid.length == xs.length then (coerced.2.1, coerced.2.2)
        else
          (objSet coerced.2.1 "Format"
            (.arr (if valid.isEmpty then [JVal.str "Standalone Episodes"] else valid)),
           coerced.2.2 ++ [FixNote.removedInvalidFormatTags])
  else p

/-- `fix`, Theme/Track block: coerce a non-list to `[value]` when it is a
string and to `[]` otherwise; a value that was already a list is filtered
to taxonomy members (note: unlike Format, the filter runs only in the
already-a-list branch, and no default is substituted). -/
def fixCat (tax : Taxonomy) (cat : String) (p : Obj × List FixNote) : Obj × List FixNote :=
  if hasKey p.1 cat then
    match objGet p.1 cat with
    | none => p
    | some v =>
        if isListInstance v then
          let xs := getArr v
          let valid := xs.filter (fun x => memberOf x (taxOf tax cat))
          if valid.length == xs.length then p
          else (objSet p.1 cat (.arr valid), p.2 ++ [FixNote.removedInvalidCatTags cat])
        else if isStrInstance v then
          (objSet p.1 cat (.arr [v]), p.2 ++ [FixNote.convertedToList cat])
        else (objSet p.1 cat (.arr []), p.2 ++ [FixNote.convertedToList cat])
  else p

/-- Python `s.isdigit()` restricted to ASCII: non-empty and all digits. -/
def isDigits (s : String) : Bool :=
  !s.data.isEmpty && s.data.all Char.isDigit

/-- Python `int(s)` on a digit string. -/
def digitsToNat (cs : List Char) : Nat :=
  cs.foldl (fun acc c => acc * 10 + (c.toNat - 48)) 0

/-- `fix`, episode-number block: a digit string is converted to an int;
any other value that is neither `None` nor an `int` instance is reset to
`None` (booleans are `int` instances and survive). -/
def fixNum (p : Obj × List FixNote) : Obj × List FixNote :=
  if hasKey p.1 "episode_number" then
    match objGet p.1 "episode_number" with
    | none => p
    | some v =>
        if isStrInstance v && isDigits (getStr v) then
          (objSet p.1 "episode_number" (.int (Int.ofNat (digitsToNat (getStr v).data))),
           p.2 ++ [FixNote.convertedEpisodeNumberToInt])
        else if isNullVal v then p
        else if isIntInstance v then p
        else (objSet p.1 "episode_number" JVal.null, p.2 ++ [FixNote.resetInvalidEpisodeNumber])
  else p

/-- All repair steps of `fix` on the fields of a dict-valued tag
assignment, in code order. -/
def fixTagsFields (tax : Taxonomy) (fs : Obj) : Obj × List FixNote :=
  fixNum (fixCat tax "Track" (fixCat tax "Theme" (fixFormat tax
    (fixAddCat "Track" (fixAddCat "Theme" (fixAddCat "Format" (fixAddNum fs)))))))

/-- `fix` on one episode.  `tags = None` is skipped.  A non-dict `tags`
value always raises `TypeError` before any visible mutation (at the
`"episode_number" not in tags` membership test for ints/floats/bools, and
at the first string-indexed read or assignment for strings and lists).
For a dict: apply the repair steps, then — mirroring `if tags:`, whose
else branch would keep the dict unvalidated — re-validate, and on
remaining violations reset `tags` (and `tagged_at`) to absent, replacing
the episode's fix notes with the single deletion note. -/
def fixEpisode (tax : Taxonomy) (e : Episode) : Except String (Episode × List FixNote) :=
  match e.tags with
  | .null => .ok (e, [])
  | .obj fs =>
      let p := fixTagsFields tax fs
      if p.1.isEmpty then .ok ({ e with tags := .obj p.1 }, p.2)
      else
        match validate_episode_tags (.obj p.1) tax with
        | .error m => .error m
        | .ok [] => .ok ({ e with tags := .obj p.1 }, p.2)
        | .ok (v :: vs) =>
            .ok ({ e with tags := JVal.null, tagged_at := none },
                 [FixNote.deletedAllTags (v :: vs)])
  | _ => .error "TypeError: tags is not a dict"

/-- The loop of `fix` over `episodes.items()`: episodes in store order;
an exception propagates out of the command before `save_state`, so an
`.error` run leaves no updated store.  Returns the updated store, the
reported `fixed_count` (episodes with a non-empty fix list) and the
`fixes_made` report entries `(title[:60], episode_fixes)`. -/
def fixStoreGo (tax : Taxonomy) :
    List (String × Episode) → Except String (EpStore × Nat × List (String × List FixNote))
  | [] => .ok ([], 0, [])
  | (g, e) :: rest =>
      match fixEpisode tax e with
      | .error m => .error m
      | .ok (e', ns) =>
          match fixStoreGo tax rest with
          | .error m => .error m
          | .ok (rest', n, made) =>
              if ns.isEmpty then .ok ((g, e') :: rest', n, made)
              else .ok ((g, e') :: rest', n + 1, (pyTake60 e.title, ns) :: made)

/-- The Repair operation: `fix` over the whole store. -/
def fixStore (tax : Taxonomy) (st : EpStore) :
    Except String (EpStore × Nat × List (String × List FixNote)) :=
  fixStoreGo tax st

/-- The per-episode result of `clean_episode`, parameterized by the
outcome of the OpenAI call (the external collaborator): on a successful
call, the model reply stripped of surrounding whitespace; on any
exception (transport failure, timeout, model error), the markup-stripped
text together with the error.  The pair is `(cleaned_text, error)` as
returned to the collecting loop. -/
def clean_episode (oracle : String → Except String String) (g : String) (e : Episode) :
    String × Option String :=
  match oracle g with
  | .ok content => (pyStrip content, none)
  | .error err => (pyCleanText e.description, some err)

/-- The collecting loop of `clean` applied to one episode: eligible
episodes (absent `cleaned_description`) get `cleaned_description` and
`cleaned_at` set unconditionally — the error, if any, is only printed.
Ineligible episodes are untouched. -/
def cleanApply (oracle : String → Except String String) (now : String)
    (g : String) (e : Episode) : Episode :=
  if e.cleaned_description.isNone then
    { e with cleaned_description := some (clean_episode oracle g e).1, cleaned_at := some now }
  else e

/-- The final store of one run of `clean` (given an API key is
configured).  The batch partitioning and the unspecified within-batch
completion order cannot affect the final store: each task writes only its
own episode's fields, so the run's end state is the per-episode update
applied to every eligible episode. -/
def cleanRun (oracle : String → Except String String) (now : String) (st : EpStore) : EpStore :=
  st.map (fun p => (p.1, cleanApply oracle now p.1 p.2))

/-- The `clean` command: with no `OPENAI_API_KEY` configured it exits
fatally (`sys.exit(1)`) before reading the store; otherwise it runs the
cleaning stage. -/
def cleanCmd (apiKey : Option String) (oracle : String → Except String String)
    (now : String) (st : EpStore) : Except String EpStore :=
  match apiKey with
  | none => .error "OPENAI_API_KEY not set in environment"
  | some _ => .ok (cleanRun oracle now st)

/-- JSON whitespace accepted between tokens by `json.loads`. -/
def jsonWs (c : Char) : Bool :=
  c == ' ' || c == '\t' || c == '\n' || c == '\r'

/-- Value of a hexadecimal digit. -/
def hexVal (c : Char) : Option Nat :=
  if c.isDigit then some (c.toNat - 48)
  else if 'a' ≤ c && c ≤ 'f' then some (c.toNat - 87)
  else if 'A' ≤ c && c ≤ 'F' then some (c.toNat - 55)
  else none

/-- Body of a JSON string literal (after the opening quote), with the
standard escapes.  Fuel-based so it reduces definitionally. -/
def parseStrBodyF : Nat → List Char → List Char → Except String (String × List Char)
  | 0, _, _ => .error "fuel exhausted"
  | _ + 1, _, [] => .error "Unterminated string"
  | f + 1, acc, c :: rest =>
      if c == '"' then .ok (String.mk acc.reverse, rest)
      else if c == '\\' then
        match rest with
        | [] => .error "Unterminated string"
        | e :: rest2 =>
            if e == '"' then parseStrBodyF f ('"' :: acc) rest2
            else if e == '\\' then parseStrBodyF f ('\\' :: acc) rest2
            else if e == '/' then parseStrBodyF f ('/' :: acc) rest2
            else if e == 'n' then parseStrBodyF f ('\n' :: acc) rest2
            else if e == 't' then parseStrBodyF f ('\t' :: acc) rest2
            else if e == 'r' then parseStrBodyF f ('\r' :: acc) rest2
            else if e == 'b' then parseStrBodyF f ('\x08' :: acc) rest2
            else if e == 'f' then parseStrBodyF f ('\x0c' :: acc) rest2
            else if e == 'u' then
              match rest2 with
              | h1 :: h2 :: h3 :: h4 :: rest3 =>
                  match hexVal h1, hexVal h2, hexVal h3, hexVal h4 with
                  | some a, some b, some c2, some d =>
                      parseStrBodyF f (Char.ofNat (((a * 16 + b) * 16 + c2) * 16 + d) :: acc) rest3
                  | _, _, _, _ => .error "Invalid unicode escape"
              | _ => .error "Invalid unicode escape"
            else .error "Invalid escape"
      else parseStrBodyF f (c :: acc) rest

/-- A JSON number: an integer becomes `.int`; a fractional part or
exponent makes it a Python float, carried by its literal text. -/
def parseNum (cs : List Char) : Except String (JVal × List Char) :=
  let neg := match cs with | '-' :: _ => true | _ => false
  let cs1 := if neg then cs.drop 1 else cs
  let ds := cs1.takeWhile Char.isDigit
  let rest1 := cs1.dropWhile Char.isDigit
  if ds.isEmpty then .error "Expecting value"
  else if ds.length > 1 && ds.headD ' ' == '0' then .error "Invalid number"
  else
    match rest1 with
    | '.' :: r2 =>
        let frac := r2.takeWhile Char.isDigit
        let r3 := r2.dropWhile Char.isDigit
        if frac.isEmpty then .error "Invalid number"
        else
          match r3 with
          | e :: r4 =>
              if e == 'e' || e == 'E' then
                let sgn := match r4 with | '+' :: _ => ['+'] | '-' :: _ => ['-'] | _ => []
                let r5 := r4.drop sgn.length
                let ex := r5.takeWhile Char.isDigit
                if ex.isEmpty then .error "Invalid number"
                else .ok (.float (String.mk ((if neg then ['-'] else []) ++ ds ++ '.' :: frac ++ e :: sgn ++ ex)),
                          r5.dropWhile Char.isDigit)
              else .ok (.float (String.mk ((if neg then ['-'] else []) ++ ds ++ '.' :: frac)), r3)
          | [] => .ok (.float (String.mk ((if neg then ['-'] else []) ++ ds ++ '.' :: frac)), [])
    | e :: r2 =>
        if e == 'e' || e == 'E' then
          let sgn := match r2 with | '+' :: _ => ['+'] | '-' :: _ => ['-'] | _ => []
          let r3 := r2.drop sgn.length
          let ex := r3.takeWhile Char.isDigit
          if ex.isEmpty then .error "Invalid number"
          else .ok (.float (String.mk ((if neg then ['-'] else []) ++ ds ++ e :: sgn ++ ex)),
                    r3.dropWhile Char.isDigit)
        else
          .ok (.int (if neg then -(Int.ofNat (digitsToNat ds)) else Int.ofNat (digitsToNat ds)),
               rest1)
    | [] => .ok (.int (if neg then -(Int.ofNat (digitsToNat ds)) else Int.ofNat (digitsToNat ds)), [])

/-- Parsing mode of the recursive-descent JSON reader: a single value, or
the element/member loop of an array or object being accumulated. -/
inductive PMode where
  | value
  | arrTail (acc : List JVal)
  | objTail (acc : Obj)

/-- Recursive-descent JSON parser over characters, structural on fuel (so
it reduces definitionally; `2 * length + 8` fuel always suffices for
inputs it accepts).  Models Python's `json.loads` on the JSON language:
objects are built by successive key assignment, so a duplicate key keeps
its first position with its last value, as in a Python dict. -/
def parseF : Nat → PMode → List Char → Except String (JVal × List Char)
  | 0, _, _ => .error "fuel exhausted"
  | f + 1, PMode.value, cs =>
      match cs.dropWhile jsonWs with
      | 'n' :: 'u' :: 'l' :: 'l' :: rest => .ok (.null, rest)
      | 't' :: 'r' :: 'u' :: 'e' :: rest => .ok (.bool true, rest)
      | 'f' :: 'a' :: 'l' :: 's' :: 'e' :: rest => .ok (.bool false, rest)
      | '"' :: rest =>
          match parseStrBodyF (rest.length + 1) [] rest with
          | .error m => .error m
          | .ok (s, rest1) => .ok (.str s, rest1)
      | '[' :: rest => parseF f (PMode.arrTail []) rest
      | '\x7b' :: rest => parseF f (PMode.objTail []) rest
      | cs' => parseNum cs'
  | f + 1, PMode.arrTail acc, cs =>
      match cs.dropWhile jsonWs with
      | ']' :: rest =>
          if acc.isEmpty then .ok (.arr [], rest) else .error "Expecting value"
      | cs' =>
          match parseF f PMode.value cs' with
          | .error m => .error m
          | .ok (v, rest1) =>
              match rest1.dropWhile jsonWs with
              | ',' :: rest2 => parseF f (PMode.arrTail (acc ++ [v])) rest2
              | ']' :: rest2 => .ok (.arr (acc ++ [v]), rest2)
              | _ => .error "Expecting comma or end of array"
  | f + 1, PMode.objTail acc, cs =>
      match cs.dropWhile jsonWs with
      | '\x7d' :: rest =>
          if acc.isEmpty then .ok (.obj [], rest) else .error "Expecting property name"
      | '"' :: rest =>
          match parseStrBodyF (rest.length + 1) [] rest with
          | .error m => .error m
          | .ok (k, rest1) =>
              match rest1.dropWhile jsonWs with
              | ':' :: rest2 =>
                  match parseF f PMode.value rest2 with
                  | .error m => .error m
                  | .ok (v, rest3) =>
                      match rest3.dropWhile jsonWs with
                      | ',' :: rest4 => parseF f (PMode.objTail (objSet acc k v)) rest4
                      | '\x7d' :: rest4 => .ok (.obj (objSet acc k v), rest4)
                      | _ => .error "Expecting comma or end of object"
              | _ => .error "Expecting colon"
      | _ => .error "Expecting property name"

/-- Python `json.loads` on the model's reply: one JSON value, with only
whitespace allowed after it. -/
def parseJson (s : String) : Except String JVal :=
  match parseF (2 * s.data.length + 8) PMode.value s.data with
  | .error m => .error m
  | .ok (v, rest) =>
      if (rest.dropWhile jsonWs).isEmpty then .ok v else .error "Extra data"

/-- Tagging eligibility: `episode.get("tags") is None and
episode.get("cleaned_description") is not None`. -/
def tagEligible (e : Episode) : Bool :=
  (match e.tags with | .null => true | _ => false) && e.cleaned_description.isSome

/-- The outcome `tag_episode` hands to the collecting loop, parameterized
by the OpenAI call: a raised exception is a failure; an empty (falsy)
reply is the `"Empty response"` failure; otherwise the reply is parsed by
`json.loads` inside the same `try`, so a parse error is also a failure;
any successfully parsed JSON value — whatever its shape — is a success
carrying that value. -/
def tag_episode (oracle : String → Except String String) (g : String) : Except String JVal :=
  match oracle g with
  | .error m => .error m
  | .ok content => if content == "" then .error "Empty response" else parseJson content

/-- The collecting loop of `tag` applied to one episode: on success the
parsed value is stored as `tags` (unvalidated) and `tagged_at` is set; on
failure the episode is untouched (its `tags` stays absent).  Ineligible
episodes are untouched. -/
def tagApply (oracle : String → Except String String) (now : String)
    (g : String) (e : Episode) : Episode :=
  if tagEligible e then
    match tag_episode oracle g with
    | .ok v => { e with tags := v, tagged_at := some now }
    | .error _ => e
  else e

/-- The final store of one run of `tag` plus the reported
`tagged_count`, given an API key is configured.  As with `clean`, batch
boundaries and within-batch completion order cannot affect the final
store. -/
def tagRun (oracle : String → Except String String) (now : String) (st : EpStore) :
    EpStore × Nat :=
  (st.map (fun p => (p.1, tagApply oracle now p.1 p.2)),
   st.countP (fun p => tagEligible p.2 && (tag_episode oracle p.1).isOk))

/-- The `tag` command: fatal configuration error without an API key. -/
def tagCmd (apiKey : Option String) (oracle : String → Except String String)
    (now : String) (st : EpStore) : Except String (EpStore × Nat) :=
  match apiKey with
  | none => .error "OPENAI_API_KEY not set in environment"
  | some _ => .ok (tagRun oracle now st)

/-- One flattened record of the export artifact. -/
structure ExportRec where
  guid : String
  title : String
  published_date : String
  audio_url : Option String
  tags : JVal
  cleaned_description : Option String

/-- The flattening `export` applies to each tagged episode. -/
def toExportRec (e : Episode) : ExportRec where
  guid := e.guid
  title := e.title
  published_date := e.published_date
  audio_url := e.audio_url
  tags := e.tags
  cleaned_description := e.cleaned_description

/-- The episodes `export` selects: every episode whose `tags` is not
`None`, in store order. -/
def taggedEpisodes (st : EpStore) : List Episode :=
  (st.map (fun p => p.2)).filter (fun e => match e.tags with | .null => false | _ => true)

/-- Python string comparison `a <= b`: lexicographic on code points. -/
def strLeChars : List Char → List Char → Bool
  | [], _ => true
  | _ :: _, [] => false
  | c :: cs, d :: ds =>
      if c.toNat = d.toNat then strLeChars cs ds
      else decide (c.toNat < d.toNat)

/-- Python `a <= b` on strings. -/
def pyStrLe (a b : String) : Bool :=
  strLeChars a.data b.data

/-- The order of `tagged_episodes.sort(key=lambda x: x["published_date"],
reverse=True)`: publish-date strings compared as Python compares strings
(lexicographically), descending. -/
def newestFirst (a b : ExportRec) : Prop :=
  pyStrLe b.published_date a.published_date = true

instance : DecidableRel newestFirst :=
  fun a b => instDecidableEqBool (pyStrLe b.published_date a.published_date) true

/-- The `export` command's output array: the selected episodes flattened
and stably sorted by publish date descending.  Python's `list.sort` is a
stable sort and the insertion sort used here is stable for the same
total preorder, so the two produce the same list.  The function reads
the store and builds a fresh list; the store is not written. -/
def exportRecords (st : EpStore) : List ExportRec :=
  List.insertionSort newestFirst ((taggedEpisodes st).map toExportRec)

theorem storeContains_append_left (st q : EpStore) (g : String)
    (h : storeContains st g = true) : storeContains (st ++ q) g = true := by
  simp only [storeContains, List.any_append, Bool.or_eq_true]
  exact Or.inl h

theorem storeLookup_append_left (st q : EpStore) (g : String)
    (h : storeContains st g = true) : storeLookup (st ++ q) g = storeLookup st g := by
  induction st with
  | nil => simp [storeContains] at h
  | cons p rest ih =>
      by_cases hk : p.1 == g
      · simp [storeLookup, List.find?, hk]
      · have h' : storeContains rest g = true := by
          simp only [storeContains, List.any_cons, Bool.or_eq_true] at h
          rcases h with h | h
          · exact absurd h (by simp [hk])
          · simpa [storeContains] using h
        simpa [storeLookup, List.find?, hk] using ih h'

theorem ingestGo_extends (now : String) (feed : List FeedItem) :
    ∀ st : EpStore, ∃ q : EpStore, (ingestGo now feed st).1 = st ++ q := by
  induction feed with
  | nil => intro st; exact ⟨[], by simp [ingestGo]⟩
  | cons item rest ih =>
      intro st
      cases hg : usableGuid item with
      | none => simpa [ingestGo, hg] using ih st
      | some g =>
          by_cases hc : storeContains st g
          · simpa [ingestGo, hg, hc] using ih st
          · obtain ⟨q, hq⟩ := ih (st ++ [(g, mkEpisode now g item)])
            exact ⟨[(g, mkEpisode now g item)] ++ q, by
              simp [ingestGo, hg, hc, hq, List.append_assoc]⟩

theorem ingestGo_mono (now : String) (feed : List FeedItem) (st : EpStore) (g : String)
    (h : storeContains st g = true) : storeContains (ingestGo now feed st).1 g = true := by
  obtain ⟨q, hq⟩ := ingestGo_extends now feed st
  rw [hq]
  exact storeContains_append_left st q g h

theorem ingestGo_covers (now : String) (feed : List FeedItem) :
    ∀ st : EpStore, ∀ item ∈ feed, ∀ g, usableGuid item = some g →
      storeContains (ingestGo now feed st).1 g = true := by
  induction feed with
  | nil => intro st item h; exact absurd h (List.not_mem_nil item)
  | cons hd rest ih =>
      intro st item hmem g hg
      rcases List.mem_cons.mp hmem with rfl | htail
      · -- item is the head: after this step its guid is in the store
        cases hhd : usableGuid item with
        | none => exact absurd hg (by simp [hhd])
        | some g' =>
            have hg' : g' = g := by rw [hhd] at hg; exact Option.some.inj hg
            subst hg'
            by_cases hc : storeContains st g'
            · simpa [ingestGo, hhd, hc] using ingestGo_mono now rest st g' hc
            · have hin : storeContains (st ++ [(g', mkEpisode now g' item)]) g' = true := by
                simp [storeContains]
              simpa [ingestGo, hhd, hc] using
                ingestGo_mono now rest (st ++ [(g', mkEpisode now g' item)]) g' hin
      · cases hhd : usableGuid hd with
        | none => simpa [ingestGo, hhd] using ih st item htail g hg
        | some g' =>
            by_cases hc : storeContains st g'
            · simpa [ingestGo, hhd, hc] using ih st item htail g hg
            · simpa [ingestGo, hhd, hc] using
                ih (st ++ [(g', mkEpisode now g' hd)]) item htail g hg

theorem ingestGo_noop (now : String) (feed : List FeedItem) (st : EpStore)
    (h : ∀ item ∈ feed, ∀ g, usableGuid item = some g → storeContains st g = true) :
    ingestGo now feed st = (st, 0) := by
  induction feed with
  | nil => rfl
  | cons hd rest ih =>
      cases hhd : usableGuid hd with
      | none =>
          simpa [ingestGo, hhd] using ih (fun item hm g hg => h item (List.mem_cons_of_mem hd hm) g hg)
      | some g =>
          have hc : storeContains st g = true := h hd (List.mem_cons_self hd rest) g hhd
          simpa [ingestGo, hhd, hc] using
            ih (fun item hm g' hg => h item (List.mem_cons_of_mem hd hm) g' hg)

/-- C5: Ingestion is idempotent: for every feed snapshot and every store
state, running the Ingestion Merger a second time against the same
unchanged feed returns the store of the first run unchanged and reports
zero newly inserted episodes (whatever timestamp the second run uses). -/
theorem ingest_idempotent (now now' : String) (feed : List FeedItem) (st : EpStore) :
    ingestStore now' feed (ingestStore now feed st).1 = ((ingestStore now feed st).1, 0) :=
  ingestGo_noop now' feed (ingestStore now feed st).1
    (fun item hm g hg => ingestGo_covers now feed st item hm g hg)

/-- C6: Merge non-destructiveness: every episode whose guid is already in
the store before ingestion is looked up unchanged afterwards — the whole
record, hence in particular `cleaned_description`, `tags`, `title`,
`description` and all timestamps, is not modified or refreshed. -/
theorem ingest_frame (now : String) (feed : List FeedItem) (st : EpStore) (g : String)
    (h : storeContains st g = true) :
    storeLookup (ingestStore now feed st).1 g = storeLookup st g := by
  obtain ⟨q, hq⟩ := ingestGo_extends now feed st
  show storeLookup (ingestGo now feed st).1 g = storeLookup st g
  rw [hq]
  exact storeLookup_append_left st q g h

theorem strLeChars_total (a : List Char) :
    ∀ b, strLeChars a b = true ∨ strLeChars b a = true := by
  induction a with
  | nil => intro b; exact Or.inl rfl
  | cons c cs ih =>
      intro b
      cases b with
      | nil => exact Or.inr rfl
      | cons d ds =>
          by_cases h : c.toNat = d.toNat
          · rcases ih ds with h1 | h1
            · exact Or.inl (by simp [strLeChars, h, h1])
            · exact Or.inr (by simp [strLeChars, h.symm, h1])
          · rcases Nat.lt_or_gt_of_ne h with hlt | hgt
            · exact Or.inl (by simp [strLeChars, h, hlt])
            · exact Or.inr (by
                have h' : d.toNat ≠ c.toNat := fun he => h he.symm
                simp [strLeChars, h', hgt])

theorem strLeChars_trans (a : List Char) :
    ∀ b c, strLeChars a b = true → strLeChars b c = true → strLeChars a c = true := by
  induction a with
  | nil => intro b c _ _; rfl
  | cons x xs ih =>
      intro b c h1 h2
      cases b with
      | nil => simp [strLeChars] at h1
      | cons y ys =>
          cases c with
          | nil => simp [strLeChars] at h2
          | cons z zs =>
              by_cases hxy : x.toNat = y.toNat
              · by_cases hyz : y.toNat = z.toNat
                · have hxz : x.toNat = z.toNat := hxy.trans hyz
                  simp only [strLeChars, hxy, if_pos, hyz, hxz] at *
                  exact ih ys zs h1 h2
                · have hlt : y.toNat < z.toNat := by
                    simp [strLeChars, hyz] at h2
                    exact h2
                  have hxz : x.toNat < z.toNat := hxy ▸ hlt
                  simp [strLeChars, Nat.ne_of_lt hxz, hxz]
              · have hlt : x.toNat < y.toNat := by
                  simp [strLeChars, hxy] at h1
                  exact h1
                by_cases hyz : y.toNat = z.toNat
                · have hxz : x.toNat < z.toNat := hyz ▸ hlt
                  simp [strLeChars, Nat.ne_of_lt hxz, hxz]
                · have hlt2 : y.toNat < z.toNat := by
                    simp [strLeChars, hyz] at h2
                    exact h2
                  have hxz : x.toNat < z.toNat := Nat.lt_trans hlt hlt2
                  simp [strLeChars, Nat.ne_of_lt hxz, hxz]

/-- Episode for the export scenario: tagged, published 2024-01-01. -/
def exJan : Episode where
  guid := "g-jan"
  title := "January"
  description := "dj"
  published_date := "2024-01-01"
  audio_url := some "https://a/jan.mp3"
  cleaned_description := some "cj"
  tags := .obj [("Format", .arr [.str "Standalone Episodes"]),
                ("Theme", .arr [.str "Military History & Battles"]),
                ("Track", .arr [.str "Roman Track"]), ("episode_number", .null)]
  ingested_at := "t0"
  cleaned_at := some "t1"
  tagged_at := some "t2"

/-- Episode for the export scenario: tagged, published 2024-06-01. -/
def exJun : Episode where
  guid := "g-jun"
  title := "June"
  description := "dd"
  published_date := "2024-06-01"
  audio_url := none
  cleaned_description := some "cd"
  tags := .obj [("Format", .arr [.str "Series Episodes"]),
                ("Theme", .arr [.str "Regional & National Histories"]),
                ("Track", .arr [.str "British History Track"]), ("episode_number", .int 3)]
  ingested_at := "t0"
  cleaned_at := some "t1"
  tagged_at := some "t2"

/-- Episode for the export scenario: untagged, so not exported. -/
def exNoTags : Episode where
  guid := "g-no"
  title := "Untagged"
  description := "dn"
  published_date := "2024-12-01"
  audio_url := none
  cleaned_description := some "cn"
  tags := JVal.null
  ingested_at := "t0"

/-- Store for the export scenario, January episode first. -/
def exDemoStore : EpStore :=
  [("g-jan", exJan), ("g-no", exNoTags), ("g-jun", exJun)]

/-- C8: the Exporter selects exactly the episodes with non-absent tags
(in the permutation sense: the output is a rearrangement of the
flattened records of exactly those episodes, `toExportRec` carrying
guid, title, publish date, audio reference, tags and cleaned
description), returns them ordered by publish date descending under
Python's string comparison — so newest first for ISO-format dates, as in
the spec's 2024-01-01 / 2024-06-01 scenario, proved concretely in the
last conjunct — and, being a pure function of the store, performs no
mutation of it. -/
theorem export_correct (st : EpStore) :
    (exportRecords st).Perm ((taggedEpisodes st).map toExportRec) ∧
    List.Sorted newestFirst (exportRecords st) ∧
    exportRecords exDemoStore = [toExportRec exJun, toExportRec exJan] := by
  refine ⟨List.perm_insertionSort newestFirst _, ?_, rfl⟩
  haveI : IsTotal ExportRec newestFirst := ⟨fun a b => by
    unfold newestFirst pyStrLe
    exact strLeChars_total b.published_date.data a.published_date.data⟩
  haveI : IsTrans ExportRec newestFirst := ⟨fun a b c h1 h2 => by
    unfold newestFirst pyStrLe at *
    exact strLeChars_trans c.published_date.data b.published_date.data a.published_date.data h2 h1⟩
  exact List.sorted_insertionSort newestFirst _

theorem storeLookup_map (F : String → Episode → Episode) (st : EpStore) (g : String) :
    storeLookup (st.map (fun p => (p.1, F p.1 p.2))) g = (storeLookup st g).map (F g) := by
  induction st with
  | nil => rfl
  | cons p rest ih =>
      by_cases hk : p.1 == g
      · have hg : p.1 = g := beq_iff_eq.mp hk
        subst hg
        simp [storeLookup, List.find?, List.map]
      · simp only [storeLookup, List.map, List.find?, hk] at *
        exact ih

/-- C3 as amended: in the cleaning stage every eligible episode (absent
`cleaned_description`) gets its `cleaned_description` set by the run —
to the whitespace-stripped model reply when the API call succeeds, and
to the markup-stripped fallback text when the call raises any exception
(transport failure included).  `cleaned_at` is set either way.  No
eligible episode is left with the field absent for retry. -/
theorem clean_sets_description (oracle : String → Except String String) (now : String)
    (st : EpStore) (g : String) (e : Episode)
    (hl : storeLookup st g = some e) (he : e.cleaned_description = none) :
    storeLookup (cleanRun oracle now st) g =
      some { e with
             cleaned_description := some (match oracle g with
               | .ok c => pyStrip c
               | .error _ => pyCleanText e.description),
             cleaned_at := some now } := by
  have hm := storeLookup_map (fun g' e' => cleanApply oracle now g' e') st g
  have hone : storeLookup (cleanRun oracle now st) g = some (cleanApply oracle now g e) := by
    unfold cleanRun
    rw [hm, hl]
    rfl
  rw [hone]
  unfold cleanApply clean_episode
  rw [he]
  cases oracle g <;> rfl

/-- Witness for `clean_sets_description` at a concrete store and a
successful call. -/
def c3Ep : Episode where
  guid := "g1"
  title := "T"
  description := "<p>Hi &amp; bye</p>"
  published_date := "2024-01-01"
  audio_url := none
  cleaned_description := none
  tags := JVal.null
  ingested_at := "t0"

theorem clean_sets_description_witness :
    storeLookup [("g1", c3Ep)] "g1" = some c3Ep ∧
    c3Ep.cleaned_description = none ∧
    storeLookup (cleanRun (fun _ => Except.ok " Nice text. ") "t1" [("g1", c3Ep)]) "g1" =
      some { c3Ep with cleaned_description := some "Nice text.", cleaned_at := some "t1" } := by
  refine ⟨rfl, rfl, ?_⟩
  exact clean_sets_description (fun _ => Except.ok " Nice text. ") "t1"
    [("g1", c3Ep)] "g1" c3Ep rfl rfl

/-- C3 counterexample: the claim as stated is false on the code — an
episode whose API call raised an exception does NOT stay unenriched: the
collecting loop of `clean` stores the returned fallback text
unconditionally (the error is only printed), so after a run in which the
call raised, `cleaned_description` is the markup-stripped text, not
absent. -/
theorem clean_error_stores_fallback :
    (storeLookup (cleanRun (fun _ => Except.error "APITimeoutError") "t1"
        [("g1", c3Ep)]) "g1").map Episode.cleaned_description =
      some (some "Hi & bye") := rfl

/-- The feed entry of the C9 scenario. -/
def c9Item : FeedItem where
  guid := some "g1"
  title := some "T"
  description := some "<p>Hi &amp; bye</p>"
  pubDate := none
  enclosureUrl := none

/-- The episode the C9 scenario's ingestion creates. -/
def c9Ep : Episode where
  guid := "g1"
  title := "T"
  description := "<p>Hi &amp; bye</p>"
  published_date := ""
  audio_url := none
  cleaned_description := none
  tags := JVal.null
  ingested_at := "t0"

/-- C9 counterexample: the claim's second half is false on the code.
With no language-model collaborator configured (`OPENAI_API_KEY` unset),
`clean` does not fall back to markup stripping: it exits fatally
(`sys.exit(1)`) before reading the store, so no store results and the
episode's `cleaned_description` does not become `"Hi & bye"`. -/
theorem clean_unconfigured_aborts :
    cleanCmd none (fun _ => Except.error "unused") "t1" [("g1", c9Ep)] =
      Except.error "OPENAI_API_KEY not set in environment" := rfl

/-- C9 as amended: ingesting the single entry
`(guid "g1", title "T", description "<p>Hi &amp; bye</p>")` into an empty
store yields exactly one episode with `cleaned_description` absent
(first conjunct, reporting one new episode); running `clean` with no API
key configured aborts with the configuration error instead of cleaning
(second conjunct); running `clean` with a key configured but the model
call failing sets `cleaned_description` to the markup-stripped,
entity-decoded `"Hi & bye"` (third conjunct). -/
theorem c9_scenario :
    ingestStore "t0" [c9Item] [] = ([("g1", c9Ep)], 1) ∧
    cleanCmd none (fun _ => Except.error "unused") "t1" [("g1", c9Ep)] =
      Except.error "OPENAI_API_KEY not set in environment" ∧
    cleanCmd (some "key") (fun _ => Except.error "APIConnectionError") "t1" [("g1", c9Ep)] =
      Except.ok [("g1",
        { c9Ep with cleaned_description := some "Hi & bye", cleaned_at := some "t1" })] :=
  ⟨rfl, rfl, rfl⟩

/-- C4 as amended: in the tagging stage, for every eligible episode, a
raised API call, an empty reply, or a reply that is not valid JSON is a
failure for that episode: its `tags` field is left absent (the episode
is untouched).  But a reply that parses as JSON is stored as the
episode's `tags` exactly as parsed, with `tagged_at` set — `tag` performs
no schema validation, so a schema-violating JSON value (an array, a
string, an object with wrong fields) is stored rather than rejected. -/
theorem tag_stores_parsed (oracle : String → Except String String) (now : String)
    (st : EpStore) (g : String) (e : Episode)
    (hl : storeLookup st g = some e) (helig : tagEligible e = true) :
    storeLookup (tagRun oracle now st).1 g =
      some (match tag_episode oracle g with
        | .ok v => { e with tags := v, tagged_at := some now }
        | .error _ => e) := by
  have hm := storeLookup_map (fun g' e' => tagApply oracle now g' e') st g
  have hone : storeLookup (tagRun oracle now st).1 g = some (tagApply oracle now g e) := by
    show storeLookup (st.map (fun p => (p.1, tagApply oracle now p.1 p.2))) g = _
    rw [hm, hl]
    rfl
  rw [hone]
  unfold tagApply
  rw [helig]
  cases tag_episode oracle g <;> rfl

/-- Witness data for the tagging theorems: an eligible episode. -/
def c4Ep : Episode where
  guid := "g1"
  title := "T"
  description := "d"
  published_date := "2024-01-01"
  audio_url := none
  cleaned_description := some "c"
  tags := JVal.null
  ingested_at := "t0"
  cleaned_at := some "t1"

theorem tag_stores_parsed_witness :
    storeLookup [("g1", c4Ep)] "g1" = some c4Ep ∧
    tagEligible c4Ep = true ∧
    storeLookup (tagRun (fun _ => Except.error "APITimeoutError") "t2" [("g1", c4Ep)]).1 "g1" =
      some c4Ep := by
  refine ⟨rfl, rfl, ?_⟩
  exact tag_stores_parsed (fun _ => Except.error "APITimeoutError") "t2"
    [("g1", c4Ep)] "g1" c4Ep rfl rfl

/-- C4 counterexample: the claim as stated is false on the code — the
model reply `"[1, 2]"` is valid JSON but violates the TagAssignment
schema (it is not an object with Format/Theme/Track arrays), yet `tag`
stores it: afterwards the episode's `tags` is the parsed array, not
absent. -/
theorem tag_stores_malformed :
    (storeLookup (tagRun (fun _ => Except.ok "[1, 2]") "t2" [("g1", c4Ep)]).1 "g1").map
        Episode.tags = some (JVal.arr [JVal.int 1, JVal.int 2]) := rfl

theorem objGet_eq_none (fs : Obj) (k : String) (h : hasKey fs k = false) :
    objGet fs k = none := by
  induction fs with
  | nil => rfl
  | cons p rest ih =>
      simp only [hasKey, List.any_cons, Bool.or_eq_false_iff] at h
      simp only [objGet, List.find?, h.1]
      exact ih h.2

theorem objGet_isSome (fs : Obj) (k : String) (h : hasKey fs k = true) :
    ∃ v, objGet fs k = some v := by
  induction fs with
  | nil => simp [hasKey] at h
  | cons p rest ih =>
      by_cases hk : p.1 == k
      · exact ⟨p.2, by simp [objGet, List.find?, hk]⟩
      · have h' : hasKey rest k = true := by
          simp only [hasKey, List.any_cons, Bool.or_eq_true] at h
          rcases h with h | h
          · exact absurd h (by simp [hk])
          · simpa [hasKey] using h
        obtain ⟨v, hv⟩ := ih h'
        exact ⟨v, by simpa [objGet, List.find?, hk] using hv⟩

theorem hasKey_of_objGet (fs : Obj) (k : String) (v : JVal) (h : objGet fs k = some v) :
    hasKey fs k = true := by
  by_cases hk : hasKey fs k
  · exact hk
  · rw [objGet_eq_none fs k (by simpa using hk)] at h
    cases h

/-- Violation condition (a) of the claim: a required key absent. -/
def violMissing (fs : Obj) : Prop :=
  ∃ k ∈ requiredKeys, hasKey fs k = false

/-- Violation condition (b): the category present with a non-sequence value. -/
def violNotSeq (fs : Obj) (cat : String) : Prop :=
  ∃ v, objGet fs cat = some v ∧ isListInstance v = false

/-- Violation condition (c): a category entry absent from the
corresponding taxonomy set. -/
def violBadEntry (fs : Obj) (cat : String) (members : List String) : Prop :=
  ∃ xs, objGet fs cat = some (.arr xs) ∧ ∃ x ∈ xs, memberOf x members = false

/-- Violation condition (d): a category sequence empty. -/
def violEmptySeq (fs : Obj) (cat : String) : Prop :=
  objGet fs cat = some (.arr [])

/-- Violation condition (e): `episode_number` present, non-null, and not
an integer (in Python's `isinstance` sense, under which booleans are
integers). -/
def violBadNum (fs : Obj) : Prop :=
  ∃ v, objGet fs "episode_number" = some v ∧ v ≠ JVal.null ∧ isIntInstance v = false

theorem checkCat_spec (fs : Obj) (cat : String) (members : List String)
    (h : ∀ xs, objGet fs cat = some (.arr xs) → ∀ x ∈ xs, hashable x = true) :
    ∃ es, checkCat fs cat members = .ok es ∧
      (Violation.notAList cat ∈ es ↔ violNotSeq fs cat) ∧
      (Violation.invalidTags cat ∈ es ↔ violBadEntry fs cat members) ∧
      (Violation.cannotBeEmpty cat ∈ es ↔ violEmptySeq fs cat) ∧
      (es = [] ↔ ¬violNotSeq fs cat ∧ ¬violBadEntry fs cat members ∧ ¬violEmptySeq fs cat) := by
  by_cases hk : hasKey fs cat
  · obtain ⟨v, hv⟩ := objGet_isSome fs cat hk
    by_cases hli : isListInstance v = true
    · obtain ⟨xs, rfl⟩ : ∃ xs, v = JVal.arr xs := by
        cases v
        case arr xs => exact ⟨xs, rfl⟩
        all_goals simp [isListInstance] at hli
      have hhash : (xs.any fun x => !hashable x) = false := by
        rw [List.any_eq_false]
        intro x hx
        simp [h xs hv x hx]
      have hbad : (xs.any fun x => !memberOf x members) = true ↔
          violBadEntry fs cat members := by
        constructor
        · intro ha
          obtain ⟨x, hx, hxm⟩ := List.any_eq_true.mp ha
          exact ⟨xs, hv, x, hx, by simpa using hxm⟩
        · rintro ⟨xs', hv', x, hx, hxm⟩
          rw [hv] at hv'
          cases hv'
          exact List.any_eq_true.mpr ⟨x, hx, by simpa using hxm⟩
      have hemp : xs.isEmpty = true ↔ violEmptySeq fs cat := by
        constructor
        · intro hx
          rw [List.isEmpty_iff] at hx
          subst hx
          exact hv
        · intro hx
          have hx2 : some (JVal.arr xs) = some (JVal.arr []) :=
            hv.symm.trans (show objGet fs cat = some (JVal.arr []) from hx)
          cases JVal.arr.inj (Option.some.inj hx2)
          rfl
      have hnot : ¬violNotSeq fs cat := by
        rintro ⟨v', hv', hlist⟩
        rw [hv] at hv'
        cases hv'
        simp [isListInstance] at hlist
      have hck : checkCat fs cat members =
          .ok ((if (xs.any fun x => !memberOf x members) = true then [Violation.invalidTags cat] else []) ++
               (if xs.isEmpty = true then [Violation.cannotBeEmpty cat] else [])) := by
        unfold checkCat
        rw [if_pos hk, hv]
        simp [isListInstance, getArr, hhash]
      refine ⟨_, hck, ?_, ?_, ?_, ?_⟩
      · constructor
        · intro hmem
          rcases List.mem_append.mp hmem with hmem | hmem <;> split at hmem <;> simp_all
        · intro hns; exact absurd hns hnot
      · constructor
        · intro hmem
          rcases List.mem_append.mp hmem with hmem | hmem <;> split at hmem <;> simp_all
        · intro hbe
          exact List.mem_append.mpr (Or.inl (by
            rw [if_pos (hbad.mpr hbe)]; exact List.mem_singleton.mpr rfl))
      · constructor
        · intro hmem
          rcases List.mem_append.mp hmem with hmem | hmem <;> split at hmem <;> simp_all
        · intro hes
          exact List.mem_append.mpr (Or.inr (by
            rw [if_pos (hemp.mpr hes)]; exact List.mem_singleton.mpr rfl))
      · constructor
        · intro hnil
          rw [List.append_eq_nil] at hnil
          refine ⟨hnot, ?_, ?_⟩
          · intro hbe
            rw [if_pos (hbad.mpr hbe)] at hnil
            cases hnil.1
          · intro hes
            rw [if_pos (hemp.mpr hes)] at hnil
            cases hnil.2
        · rintro ⟨_, hbe, hes⟩
          have h1 : (xs.any fun x => !memberOf x members) = false := by
            by_cases hx : (xs.any fun x => !memberOf x members) = true
            · exact absurd (hbad.mp hx) hbe
            · simpa using hx
          have h2 : xs.isEmpty = false := by
            by_cases hx : xs.isEmpty = true
            · exact absurd (hemp.mp hx) hes
            · simpa using hx
          simp [h1, h2]
    · have hli' : isListInstance v = false := by simpa using hli
      have hns : violNotSeq fs cat := ⟨v, hv, hli'⟩
      have hnoarr : ∀ xs, v ≠ JVal.arr xs := by
        intro xs he
        subst he
        simp [isListInstance] at hli'
      have hnobad : ¬violBadEntry fs cat members := by
        rintro ⟨xs, hv', -⟩
        exact hnoarr xs (Option.some.inj (hv.symm.trans hv'))
      have hnoemp : ¬violEmptySeq fs cat := by
        intro hv'
        exact hnoarr [] (Option.some.inj
          (hv.symm.trans (show objGet fs cat = some (JVal.arr []) from hv')))
      refine ⟨[Violation.notAList cat], ?_, ?_, ?_, ?_, ?_⟩
      · simp [checkCat, hk, hv, hli']
      · simp [hns]
      · simp [hnobad]
      · simp [hnoemp]
      · simp [hns]
  · have hk' : hasKey fs cat = false := by simpa using hk
    have hnone := objGet_eq_none fs cat hk'
    have hnotseq : ¬violNotSeq fs cat := by
      rintro ⟨v, hv, -⟩; rw [hnone] at hv; cases hv
    have hnobad : ¬violBadEntry fs cat members := by
      rintro ⟨xs, hv, -⟩; rw [hnone] at hv; cases hv
    have hnoemp : ¬violEmptySeq fs cat := by
      intro hv
      have : (none : Option JVal) = some (JVal.arr []) :=
        hnone.symm.trans (show objGet fs cat = some (JVal.arr []) from hv)
      cases this
    refine ⟨[], by simp [checkCat, hk'], ?_, ?_, ?_, ?_⟩
    · simp [hnotseq]
    · simp [hnobad]
    · simp [hnoemp]
    · simp [hnotseq, hnobad, hnoemp]

theorem isNullVal_false_ne (v : JVal) (h : isNullVal v = false) : v ≠ JVal.null := by
  intro he
  subst he
  simp [isNullVal] at h

theorem checkNum_spec (fs : Obj) :
    (Violation.badEpisodeNumber ∈ checkNum fs ↔ violBadNum fs) ∧
    (checkNum fs = [] ↔ ¬violBadNum fs) := by
  by_cases hk : hasKey fs "episode_number"
  · obtain ⟨v, hv⟩ := objGet_isSome fs "episode_number" hk
    by_cases hnull : isNullVal v = true
    · have hveq : v = JVal.null := by
        cases v <;> first | rfl | simp [isNullVal] at hnull
      subst hveq
      have hno : ¬violBadNum fs := by
        rintro ⟨v', hv', hne, -⟩
        exact hne (Option.some.inj (hv'.symm.trans hv))
      have hval : checkNum fs = [] := by simp [checkNum, hk, hv, isNullVal]
      rw [hval]
      simp [hno]
    · have hnull' : isNullVal v = false := by simpa using hnull
      by_cases hint : isIntInstance v = true
      · have hno : ¬violBadNum fs := by
          rintro ⟨v', hv', -, hii⟩
          have : v' = v := Option.some.inj (hv'.symm.trans hv)
          subst this
          rw [hint] at hii
          cases hii
        have hval : checkNum fs = [] := by simp [checkNum, hk, hv, hnull', hint]
        rw [hval]
        simp [hno]
      · have hint' : isIntInstance v = false := by simpa using hint
        have hyes : violBadNum fs := ⟨v, hv, isNullVal_false_ne v hnull', hint'⟩
        have hval : checkNum fs = [Violation.badEpisodeNumber] := by
          simp [checkNum, hk, hv, hnull', hint']
        rw [hval]
        simp [hyes]
  · have hk' : hasKey fs "episode_number" = false := by simpa using hk
    have hnone := objGet_eq_none fs "episode_number" hk'
    have hno : ¬violBadNum fs := by
      rintro ⟨v', hv', -, -⟩
      rw [hnone] at hv'
      cases hv'
    have hval : checkNum fs = [] := by simp [checkNum, hk']
    rw [hval]
    simp [hno]

theorem missingFilter_spec (fs : Obj) :
    (requiredKeys.filter fun k => !hasKey fs k).isEmpty = true ↔ ¬violMissing fs := by
  rw [List.isEmpty_iff, List.filter_eq_nil_iff]
  constructor
  · rintro hall ⟨k, hk, hfalse⟩
    have := hall k hk
    rw [hfalse] at this
    simp at this
  · intro hnv k hk
    by_cases hkk : hasKey fs k = true
    · simp [hkk]
    · exact absurd ⟨k, hk, by simpa using hkk⟩ hnv


/-- Executable form of the hashability side condition: every
category value that is a list contains only hashable (scalar) entries. -/
def scalarCatEntries (fs : Obj) : Bool :=
  ["Format", "Theme", "Track"].all fun cat =>
    match objGet fs cat with
    | some v => if isListInstance v then (getArr v).all hashable else true
    | none => true

theorem scalarCatEntries_spec (fs : Obj) (hs : scalarCatEntries fs = true) :
    ∀ cat ∈ ["Format", "Theme", "Track"], ∀ xs, objGet fs cat = some (.arr xs) →
      ∀ x ∈ xs, hashable x = true := by
  intro cat hcat xs hxs x hx
  unfold scalarCatEntries at hs
  rw [List.all_eq_true] at hs
  have hc := hs cat hcat
  rw [hxs] at hc
  simp only [isListInstance, getArr, if_pos] at hc
  exact List.all_eq_true.mp hc x hx

/-- C7 as amended: for every tags mapping whose category sequences
contain only hashable (scalar) entries — on a mapping with a list or
dict inside a category sequence the validator instead raises `TypeError`
from `set(cat_tags)`, see the counterexample — the Tag Validator returns
a list of violations that is empty iff none of the five violation
conditions (a)–(e) of the claim holds, and that reports every applicable
violation independently: each condition that holds contributes its own
entry to the list (conditions are keyed by `Violation`; "integer" in
condition (e) is Python's `isinstance(..., int)`, under which booleans
count as integers). -/
theorem validator_correct (fs : Obj) (tax : Taxonomy)
    (hs : scalarCatEntries fs = true) :
    ∃ errs, validate_episode_tags (.obj fs) tax = .ok errs ∧
      (errs = [] ↔
        ¬violMissing fs ∧
        (¬violNotSeq fs "Format" ∧ ¬violBadEntry fs "Format" tax.format ∧
          ¬violEmptySeq fs "Format") ∧
        (¬violNotSeq fs "Theme" ∧ ¬violBadEntry fs "Theme" tax.theme ∧
          ¬violEmptySeq fs "Theme") ∧
        (¬violNotSeq fs "Track" ∧ ¬violBadEntry fs "Track" tax.track ∧
          ¬violEmptySeq fs "Track") ∧
        ¬violBadNum fs) ∧
      (violMissing fs →
        Violation.missingFields (requiredKeys.filter fun k => !hasKey fs k) ∈ errs) ∧
      (violNotSeq fs "Format" → Violation.notAList "Format" ∈ errs) ∧
      (violBadEntry fs "Format" tax.format → Violation.invalidTags "Format" ∈ errs) ∧
      (violEmptySeq fs "Format" → Violation.cannotBeEmpty "Format" ∈ errs) ∧
      (violNotSeq fs "Theme" → Violation.notAList "Theme" ∈ errs) ∧
      (violBadEntry fs "Theme" tax.theme → Violation.invalidTags "Theme" ∈ errs) ∧
      (violEmptySeq fs "Theme" → Violation.cannotBeEmpty "Theme" ∈ errs) ∧
      (violNotSeq fs "Track" → Violation.notAList "Track" ∈ errs) ∧
      (violBadEntry fs "Track" tax.track → Violation.invalidTags "Track" ∈ errs) ∧
      (violEmptySeq fs "Track" → Violation.cannotBeEmpty "Track" ∈ errs) ∧
      (violBadNum fs → Violation.badEpisodeNumber ∈ errs) := by
  have h := scalarCatEntries_spec fs hs
  obtain ⟨e1, hck1, hn1, hi1, he1, hz1⟩ :=
    checkCat_spec fs "Format" tax.format (h "Format" (by simp))
  obtain ⟨e2, hck2, hn2, hi2, he2, hz2⟩ :=
    checkCat_spec fs "Theme" tax.theme (h "Theme" (by simp))
  obtain ⟨e3, hck3, hn3, hi3, he3, hz3⟩ :=
    checkCat_spec fs "Track" tax.track (h "Track" (by simp))
  obtain ⟨hnum_mem, hnum_nil⟩ := checkNum_spec fs
  have hval : validate_episode_tags (.obj fs) tax =
      .ok (missingErrs fs ++ e1 ++ e2 ++ e3 ++ checkNum fs) := by
    simp only [validate_episode_tags, hck1, hck2, hck3]
  have hz0 : missingErrs fs = [] ↔ ¬violMissing fs := by
    unfold missingErrs
    by_cases hm : (requiredKeys.filter fun k => !hasKey fs k).isEmpty
    · simp [hm, (missingFilter_spec fs).mp hm]
    · have hvm : violMissing fs := by
        by_cases hv : violMissing fs
        · exact hv
        · exact absurd ((missingFilter_spec fs).mpr hv) hm
      simp [hm, hvm]
  have hm0 : violMissing fs →
      Violation.missingFields (requiredKeys.filter fun k => !hasKey fs k) ∈ missingErrs fs := by
    intro hv
    unfold missingErrs
    have hne : (requiredKeys.filter fun k => !hasKey fs k).isEmpty = false := by
      by_cases hm : (requiredKeys.filter fun k => !hasKey fs k).isEmpty
      · exact absurd hv ((missingFilter_spec fs).mp hm)
      · simpa using hm
    simp [hne]
  refine ⟨missingErrs fs ++ e1 ++ e2 ++ e3 ++ checkNum fs, hval,
    ?_, ?_, ?_, ?_, ?_, ?_, ?_, ?_, ?_, ?_, ?_, ?_⟩
  · constructor
    · intro hnil
      simp only [List.append_eq_nil] at hnil
      obtain ⟨⟨⟨⟨h0, h1⟩, h2⟩, h3⟩, h4⟩ := hnil
      exact ⟨hz0.mp h0, hz1.mp h1, hz2.mp h2, hz3.mp h3, hnum_nil.mp h4⟩
    · rintro ⟨v0, v1, v2, v3, v4⟩
      rw [hz0.mpr v0, hz1.mpr v1, hz2.mpr v2, hz3.mpr v3, hnum_nil.mpr v4]
      rfl
  · intro hv
    simp only [List.mem_append]
    exact Or.inl (Or.inl (Or.inl (Or.inl (hm0 hv))))
  · intro hv
    simp only [List.mem_append]
    exact Or.inl (Or.inl (Or.inl (Or.inr (hn1.mpr hv))))
  · intro hv
    simp only [List.mem_append]
    exact Or.inl (Or.inl (Or.inl (Or.inr (hi1.mpr hv))))
  · intro hv
    simp only [List.mem_append]
    exact Or.inl (Or.inl (Or.inl (Or.inr (he1.mpr hv))))
  · intro hv
    simp only [List.mem_append]
    exact Or.inl (Or.inl (Or.inr (hn2.mpr hv)))
  · intro hv
    simp only [List.mem_append]
    exact Or.inl (Or.inl (Or.inr (hi2.mpr hv)))
  · intro hv
    simp only [List.mem_append]
    exact Or.inl (Or.inl (Or.inr (he2.mpr hv)))
  · intro hv
    simp only [List.mem_append]
    exact Or.inl (Or.inr (hn3.mpr hv))
  · intro hv
    simp only [List.mem_append]
    exact Or.inl (Or.inr (hi3.mpr hv))
  · intro hv
    simp only [List.mem_append]
    exact Or.inl (Or.inr (he3.mpr hv))
  · intro hv
    simp only [List.mem_append]
    exact Or.inr (hnum_mem.mpr hv)

/-- Witness data for `validator_correct`: a tags mapping with one
violation of each applicable kind absent, i.e. fully valid. -/
def c7Fs : Obj :=
  [("Format", .arr [.str "Series Episodes"]),
   ("Theme", .arr [.str "Medieval & Renaissance Europe"]),
   ("Track", .arr [.str "Roman Track"]),
   ("episode_number", .int 5)]

theorem validator_correct_witness :
    scalarCatEntries c7Fs = true ∧
    (∃ errs, validate_episode_tags (.obj c7Fs) defaultTaxonomy = .ok errs ∧
      (errs = [] ↔
        ¬violMissing c7Fs ∧
        (¬violNotSeq c7Fs "Format" ∧ ¬violBadEntry c7Fs "Format" defaultTaxonomy.format ∧
          ¬violEmptySeq c7Fs "Format") ∧
        (¬violNotSeq c7Fs "Theme" ∧ ¬violBadEntry c7Fs "Theme" defaultTaxonomy.theme ∧
          ¬violEmptySeq c7Fs "Theme") ∧
        (¬violNotSeq c7Fs "Track" ∧ ¬violBadEntry c7Fs "Track" defaultTaxonomy.track ∧
          ¬violEmptySeq c7Fs "Track") ∧
        ¬violBadNum c7Fs) ∧
      (violMissing c7Fs →
        Violation.missingFields (requiredKeys.filter fun k => !hasKey c7Fs k) ∈ errs) ∧
      (violNotSeq c7Fs "Format" → Violation.notAList "Format" ∈ errs) ∧
      (violBadEntry c7Fs "Format" defaultTaxonomy.format → Violation.invalidTags "Format" ∈ errs) ∧
      (violEmptySeq c7Fs "Format" → Violation.cannotBeEmpty "Format" ∈ errs) ∧
      (violNotSeq c7Fs "Theme" → Violation.notAList "Theme" ∈ errs) ∧
      (violBadEntry c7Fs "Theme" defaultTaxonomy.theme → Violation.invalidTags "Theme" ∈ errs) ∧
      (violEmptySeq c7Fs "Theme" → Violation.cannotBeEmpty "Theme" ∈ errs) ∧
      (violNotSeq c7Fs "Track" → Violation.notAList "Track" ∈ errs) ∧
      (violBadEntry c7Fs "Track" defaultTaxonomy.track → Violation.invalidTags "Track" ∈ errs) ∧
      (violEmptySeq c7Fs "Track" → Violation.cannotBeEmpty "Track" ∈ errs) ∧
      (violBadNum c7Fs → Violation.badEpisodeNumber ∈ errs)) :=
  ⟨rfl, validator_correct c7Fs defaultTaxonomy rfl⟩

/-- C7 counterexample: the claim quantifies over every tags mapping, but
on this mapping — where condition (c) applies, since the entry `[[]]` of
the Format sequence is not a taxonomy member — `validate_episode_tags`
does not return a violation list at all: `set(cat_tags)` raises
`TypeError` because that entry is an unhashable list. -/
theorem validator_raises_unhashable :
    validate_episode_tags
      (.obj [("Format", .arr [.arr []]),
             ("Theme", .arr [.str "x"]),
             ("Track", .arr [.str "y"]),
             ("episode_number", .null)]) defaultTaxonomy =
      .error "TypeError: unhashable type" := rfl

theorem validate_raises_nonDict (v : JVal) (tax : Taxonomy) (h : isObjVal v = false) :
    validate_episode_tags v tax = .error "AttributeError: object has no attribute keys" := by
  cases v
  case obj => simp [isObjVal] at h
  all_goals rfl

theorem fixEpisode_raises (tax : Taxonomy) (e : Episode)
    (h1 : isObjVal e.tags = false) (h2 : e.tags ≠ JVal.null) :
    fixEpisode tax e = .error "TypeError: tags is not a dict" := by
  cases he : e.tags
  case null => exact absurd he h2
  case obj fs => rw [he] at h1; simp [isObjVal] at h1
  all_goals simp [fixEpisode, he]

theorem fixStore_raises (tax : Taxonomy) (st : EpStore) (g : String) (e : Episode)
    (hmem : (g, e) ∈ st) (h1 : isObjVal e.tags = false) (h2 : e.tags ≠ JVal.null) :
    ∃ m, fixStore tax st = .error m := by
  induction st with
  | nil => cases hmem
  | cons p rest ih =>
      rcases List.mem_cons.mp hmem with rfl | htail
      · exact ⟨"TypeError: tags is not a dict",
          by simp [fixStore, fixStoreGo, fixEpisode_raises tax e h1 h2]⟩
      · cases hfe : fixEpisode tax p.2 with
        | error m => exact ⟨m, by simp [fixStore, fixStoreGo, hfe]⟩
        | ok pr =>
            obtain ⟨m, hm⟩ := ih htail
            exact ⟨m, by simp [fixStore] at hm; simp [fixStore, fixStoreGo, hfe, hm]⟩

/-- C10: the Tag Validator is total only on mapping-typed tags values.
For every stored tags value that is not a dict (for example a JSON array
or string, which the tagging stage can store since it persists any
successfully parsed JSON reply — see `tag_stores_parsed`),
`validate_episode_tags` raises `AttributeError` at `set(tags.keys())`
instead of returning a violation list; and a run of `fix` over any store
containing an episode with such a (non-absent) tags value raises
`TypeError` instead of repairing or deleting the value, so no updated
store is produced. -/
theorem nonMapping_tags_raise (v : JVal) (tax : Taxonomy) (st : EpStore)
    (g : String) (e : Episode) (hv : isObjVal v = false) (hn : v ≠ JVal.null) :
    validate_episode_tags v tax = .error "AttributeError: object has no attribute keys" ∧
    ((g, e) ∈ st → e.tags = v → ∃ m, fixStore tax st = .error m) := by
  refine ⟨validate_raises_nonDict v tax hv, fun hmem he => ?_⟩
  exact fixStore_raises tax st g e hmem (by rw [he]; exact hv) (by rw [he]; exact hn)

/-- Witness data for `nonMapping_tags_raise`: an episode whose tags value
is a stored JSON array. -/
def c10Ep : Episode where
  guid := "g1"
  title := "T"
  description := "d"
  published_date := "2024-01-01"
  audio_url := none
  cleaned_description := some "c"
  tags := JVal.arr [JVal.int 1, JVal.int 2]
  ingested_at := "t0"
  cleaned_at := some "t1"
  tagged_at := some "t2"

theorem nonMapping_tags_raise_witness :
    isObjVal (JVal.arr [JVal.int 1, JVal.int 2]) = false ∧
    JVal.arr [JVal.int 1, JVal.int 2] ≠ JVal.null ∧
    (validate_episode_tags (JVal.arr [JVal.int 1, JVal.int 2]) defaultTaxonomy =
        .error "AttributeError: object has no attribute keys" ∧
      (("g1", c10Ep) ∈ [("g1", c10Ep)] → c10Ep.tags = JVal.arr [JVal.int 1, JVal.int 2] →
        ∃ m, fixStore defaultTaxonomy [("g1", c10Ep)] = .error m)) :=
  ⟨rfl, fun h => JVal.noConfusion h,
    nonMapping_tags_raise (JVal.arr [JVal.int 1, JVal.int 2]) defaultTaxonomy
      [("g1", c10Ep)] "g1" c10Ep rfl (fun h => JVal.noConfusion h)⟩

/-- Witness data for `ingest_frame`: a store already containing guid
`g-jan` and a feed republishing the same guid with different fields. -/
def c6Item : FeedItem where
  guid := some "g-jan"
  title := some "Refreshed title"
  description := some "Refreshed description"
  pubDate := some "2025-01-01"
  enclosureUrl := some "https://a/new.mp3"

theorem ingest_frame_witness :
    storeContains [("g-jan", exJan)] "g-jan" = true ∧
    storeLookup (ingestStore "t9" [c6Item] [("g-jan", exJan)]).1 "g-jan" =
      storeLookup [("g-jan", exJan)] "g-jan" :=
  ⟨rfl, ingest_frame "t9" [c6Item] [("g-jan", exJan)] "g-jan" rfl⟩

theorem objSet_ne_nil (fs : Obj) (k : String) (v : JVal) : objSet fs k v ≠ [] := by
  cases fs with
  | nil => simp [objSet]
  | cons p rest =>
      unfold objSet
      split <;> simp

theorem fixAddNum_ne_nil (fs : Obj) : (fixAddNum fs).1 ≠ [] := by
  unfold fixAddNum
  split
  · intro he
    subst he
    simp [hasKey] at *
  · exact objSet_ne_nil fs "episode_number" JVal.null

theorem fixAddCat_ne_nil (cat : String) (p : Obj × List FixNote) (h : p.1 ≠ []) :
    (fixAddCat cat p).1 ≠ [] := by
  unfold fixAddCat
  split
  · exact h
  · exact objSet_ne_nil p.1 cat (JVal.arr [])

theorem fixFormat_ne_nil (tax : Taxonomy) (p : Obj × List FixNote) (h : p.1 ≠ []) :
    (fixFormat tax p).1 ≠ [] := by
  unfold fixFormat
  repeat' first
  | exact h
  | apply objSet_ne_nil
  | dsimp only
  | split

theorem fixCat_ne_nil (tax : Taxonomy) (cat : String) (p : Obj × List FixNote) (h : p.1 ≠ []) :
    (fixCat tax cat p).1 ≠ [] := by
  unfold fixCat
  repeat' first
  | exact h
  | apply objSet_ne_nil
  | dsimp only
  | split

theorem fixNum_ne_nil (p : Obj × List FixNote) (h : p.1 ≠ []) :
    (fixNum p).1 ≠ [] := by
  unfold fixNum
  repeat' first
  | exact h
  | apply objSet_ne_nil
  | dsimp only
  | split

theorem fixTagsFields_ne_nil (tax : Taxonomy) (fs : Obj) :
    (fixTagsFields tax fs).1 ≠ [] := by
  unfold fixTagsFields
  apply fixNum_ne_nil
  apply fixCat_ne_nil
  apply fixCat_ne_nil
  apply fixFormat_ne_nil
  apply fixAddCat_ne_nil
  apply fixAddCat_ne_nil
  apply fixAddCat_ne_nil
  exact fixAddNum_ne_nil fs

theorem ne_nil_isEmpty_false {α : Type} (l : List α) (h : l ≠ []) : l.isEmpty = false := by
  cases l with
  | nil => exact absurd rfl h
  | cons a l => rfl

theorem fixEpisode_validity (tax : Taxonomy) (e e' : Episode) (ns : List FixNote)
    (h : fixEpisode tax e = .ok (e', ns)) (ht : e'.tags ≠ JVal.null) :
    validate_episode_tags e'.tags tax = .ok [] := by
  unfold fixEpisode at h
  cases hc : e.tags with
  | null =>
      rw [hc] at h
      simp only [] at h
      obtain ⟨he', -⟩ := Prod.mk.injEq .. ▸ Except.ok.inj h
      rw [← he'] at ht
      exact absurd hc ht
  | obj fs =>
      rw [hc] at h
      simp only [] at h
      rw [ne_nil_isEmpty_false _ (fixTagsFields_ne_nil tax fs)] at h
      simp only [Bool.false_eq_true, if_false] at h
      cases hv : validate_episode_tags (.obj (fixTagsFields tax fs).1) tax with
      | error m => rw [hv] at h; cases h
      | ok errs =>
          rw [hv] at h
          cases errs with
          | nil =>
              simp only [] at h
              obtain ⟨he', -⟩ := Prod.mk.injEq .. ▸ Except.ok.inj h
              rw [← he']
              exact hv
          | cons v vs =>
              simp only [] at h
              obtain ⟨he', -⟩ := Prod.mk.injEq .. ▸ Except.ok.inj h
              rw [← he'] at ht
              simp at ht
  | bool b => rw [hc] at h; cases h
  | int n => rw [hc] at h; cases h
  | float l => rw [hc] at h; cases h
  | str s => rw [hc] at h; cases h
  | arr xs => rw [hc] at h; cases h

theorem fixStoreGo_validity (tax : Taxonomy) (st : EpStore) :
    ∀ st' n made, fixStoreGo tax st = .ok (st', n, made) →
      ∀ g e', (g, e') ∈ st' → e'.tags ≠ JVal.null →
        validate_episode_tags e'.tags tax = .ok [] := by
  induction st with
  | nil =>
      intro st' n made h g e' hmem hne
      simp only [fixStoreGo] at h
      obtain ⟨h1, -⟩ := Prod.mk.injEq .. ▸ Except.ok.inj h
      rw [← h1] at hmem
      cases hmem
  | cons p rest ih =>
      intro st' n made h g e' hmem hne
      obtain ⟨g0, e0⟩ := p
      simp only [fixStoreGo] at h
      cases hfe : fixEpisode tax e0 with
      | error m => simp only [hfe] at h; exact Except.noConfusion h
      | ok q =>
          obtain ⟨e0', ns⟩ := q
          simp only [hfe] at h
          cases hgo : fixStoreGo tax rest with
          | error m => simp only [hgo] at h; exact Except.noConfusion h
          | ok t =>
              obtain ⟨rest', n', made'⟩ := t
              simp only [hgo] at h
              by_cases hns : ns.isEmpty
              · rw [if_pos hns] at h
                obtain ⟨h1, -⟩ := Prod.mk.injEq .. ▸ Except.ok.inj h
                rw [← h1] at hmem
                rcases List.mem_cons.mp hmem with heq | htail
                · obtain ⟨-, he⟩ := Prod.mk.injEq .. ▸ heq
                  rw [he]
                  exact fixEpisode_validity tax e0 e0' ns hfe (he ▸ hne)
                · exact ih rest' n' made' hgo g e' htail hne
              · rw [if_neg hns] at h
                obtain ⟨h1, -⟩ := Prod.mk.injEq .. ▸ Except.ok.inj h
                rw [← h1] at hmem
                rcases List.mem_cons.mp hmem with heq | htail
                · obtain ⟨-, he⟩ := Prod.mk.injEq .. ▸ heq
                  rw [he]
                  exact fixEpisode_validity tax e0 e0' ns hfe (he ▸ hne)
                · exact ih rest' n' made' hgo g e' htail hne

theorem hasKey_ne_nil (fs : Obj) (k : String) (h : hasKey fs k = true) : fs ≠ [] := by
  intro he
  subst he
  simp [hasKey] at h

theorem checkCat_ok_nil (fs : Obj) (cat : String) (members : List String)
    (hk : hasKey fs cat = true) (h : checkCat fs cat members = .ok []) :
    ∃ xs, objGet fs cat = some (.arr xs) ∧ (∀ x ∈ xs, memberOf x members = true) ∧ xs ≠ [] := by
  obtain ⟨v, hv⟩ := objGet_isSome fs cat hk
  unfold checkCat at h
  rw [if_pos hk] at h
  simp only [hv] at h
  by_cases hli : isListInstance v = true
  · obtain ⟨xs, rfl⟩ : ∃ xs, v = JVal.arr xs := by
      cases v
      case arr xs => exact ⟨xs, rfl⟩
      all_goals simp [isListInstance] at hli
    rw [if_pos hli] at h
    simp only [getArr] at h
    cases hhash : xs.any (fun x => !hashable x) with
    | true => rw [hhash] at h; simp at h
    | false =>
        rw [hhash] at h
        simp only [Bool.false_eq_true, if_false] at h
        have hnil := Except.ok.inj h
        rw [List.append_eq_nil] at hnil
        refine ⟨xs, hv, ?_, ?_⟩
        · intro x hx
          by_cases hb : (xs.any fun x => !memberOf x members) = true
          · rw [if_pos hb] at hnil
            cases hnil.1
          · have hb' : ∀ x ∈ xs, memberOf x members = true := by simpa using hb
            exact hb' x hx
        · intro he
          subst he
          simp at hnil
  · rw [if_neg hli] at h
    simp at h

theorem checkNum_ok_nil (fs : Obj) (hk : hasKey fs "episode_number" = true)
    (h : checkNum fs = []) :
    ∃ v, objGet fs "episode_number" = some v ∧
      (isNullVal v = true ∨ isIntInstance v = true) := by
  obtain ⟨v, hv⟩ := objGet_isSome fs "episode_number" hk
  unfold checkNum at h
  rw [if_pos hk] at h
  simp only [hv] at h
  refine ⟨v, hv, ?_⟩
  by_cases hn : isNullVal v = true
  · exact Or.inl hn
  · rw [if_neg hn] at h
    by_cases hi : isIntInstance v = true
    · exact Or.inr hi
    · rw [if_neg hi] at h
      cases h

theorem validate_ok_nil_facts (fs : Obj) (tax : Taxonomy)
    (h : validate_episode_tags (.obj fs) tax = .ok []) :
    (∀ k ∈ requiredKeys, hasKey fs k = true) ∧
    (∃ xs, objGet fs "Format" = some (.arr xs) ∧
      (∀ x ∈ xs, memberOf x tax.format = true) ∧ xs ≠ []) ∧
    (∃ xs, objGet fs "Theme" = some (.arr xs) ∧
      (∀ x ∈ xs, memberOf x tax.theme = true) ∧ xs ≠ []) ∧
    (∃ xs, objGet fs "Track" = some (.arr xs) ∧
      (∀ x ∈ xs, memberOf x tax.track = true) ∧ xs ≠ []) ∧
    (∃ v, objGet fs "episode_number" = some v ∧
      (isNullVal v = true ∨ isIntInstance v = true)) := by
  unfold validate_episode_tags at h
  cases hc1 : checkCat fs "Format" tax.format with
  | error m => simp only [hc1] at h; exact Except.noConfusion h
  | ok e1 =>
      cases hc2 : checkCat fs "Theme" tax.theme with
      | error m => simp only [hc1, hc2] at h; exact Except.noConfusion h
      | ok e2 =>
          cases hc3 : checkCat fs "Track" tax.track with
          | error m => simp only [hc1, hc2, hc3] at h; exact Except.noConfusion h
          | ok e3 =>
              simp only [hc1, hc2, hc3] at h
              have hnil := Except.ok.inj h
              simp only [List.append_eq_nil] at hnil
              obtain ⟨⟨⟨⟨h0, h1⟩, h2⟩, h3⟩, h4⟩ := hnil
              have hkeys : ∀ k ∈ requiredKeys, hasKey fs k = true := by
                intro k hkk
                have hnv : ¬violMissing fs := by
                  unfold missingErrs at h0
                  by_cases hm : (requiredKeys.filter fun k => !hasKey fs k).isEmpty
                  · exact (missingFilter_spec fs).mp hm
                  · rw [if_neg hm] at h0
                    cases h0
                by_cases hk : hasKey fs k = true
                · exact hk
                · exact absurd ⟨k, hkk, by simpa using hk⟩ hnv
              refine ⟨hkeys, ?_, ?_, ?_, ?_⟩
              · exact checkCat_ok_nil fs "Format" tax.format
                  (hkeys "Format" (by simp [requiredKeys])) (h1 ▸ hc1)
              · exact checkCat_ok_nil fs "Theme" tax.theme
                  (hkeys "Theme" (by simp [requiredKeys])) (h2 ▸ hc2)
              · exact checkCat_ok_nil fs "Track" tax.track
                  (hkeys "Track" (by simp [requiredKeys])) (h3 ▸ hc3)
              · exact checkNum_ok_nil fs
                  (hkeys "episode_number" (by simp [requiredKeys])) h4

theorem fixAddNum_noop (fs : Obj) (h : hasKey fs "episode_number" = true) :
    fixAddNum fs = (fs, []) := by
  unfold fixAddNum
  rw [if_pos h]

theorem fixAddCat_noop (cat : String) (p : Obj × List FixNote) (h : hasKey p.1 cat = true) :
    fixAddCat cat p = p := by
  unfold fixAddCat
  rw [if_pos h]

theorem fixFormat_noop (tax : Taxonomy) (fs : Obj) (notes : List FixNote) (xs : List JVal)
    (hg : objGet fs "Format" = some (.arr xs))
    (hmem : ∀ x ∈ xs, memberOf x tax.format = true) :
    fixFormat tax (fs, notes) = (fs, notes) := by
  have hk := hasKey_of_objGet fs "Format" _ hg
  have hfe : xs.filter (fun x => memberOf x tax.format) = xs :=
    List.filter_eq_self.mpr (fun a ha => hmem a ha)
  unfold fixFormat
  dsimp only
  rw [if_pos hk]
  simp only [hg, isListInstance, getArr, if_true, hfe, beq_self_eq_true, if_pos]

theorem fixCat_noop (tax : Taxonomy) (cat : String) (fs : Obj) (notes : List FixNote)
    (xs : List JVal) (hg : objGet fs cat = some (.arr xs))
    (hmem : ∀ x ∈ xs, memberOf x (taxOf tax cat) = true) :
    fixCat tax cat (fs, notes) = (fs, notes) := by
  have hk := hasKey_of_objGet fs cat _ hg
  have hfe : xs.filter (fun x => memberOf x (taxOf tax cat)) = xs :=
    List.filter_eq_self.mpr (fun a ha => hmem a ha)
  unfold fixCat
  dsimp only
  rw [if_pos hk]
  simp only [hg, isListInstance, getArr, if_true, hfe, beq_self_eq_true, if_pos]

theorem fixNum_noop (fs : Obj) (notes : List FixNote) (v : JVal)
    (hg : objGet fs "episode_number" = some v)
    (hv : isNullVal v = true ∨ isIntInstance v = true) :
    fixNum (fs, notes) = (fs, notes) := by
  have hk := hasKey_of_objGet fs "episode_number" _ hg
  have hstr : isStrInstance v = false := by
    rcases hv with h | h <;> cases v <;> simp_all [isNullVal, isIntInstance, isStrInstance]
  unfold fixNum
  dsimp only
  rw [if_pos hk]
  rcases hv with h | h
  · simp only [hg, hstr, Bool.false_and, Bool.false_eq_true, if_false, h, if_true]
  · by_cases hn : isNullVal v = true
    · simp only [hg, hstr, Bool.false_and, Bool.false_eq_true, if_false, hn, if_true]
    · simp only [hg, hstr, Bool.false_and, Bool.false_eq_true, if_false,
        hn, h, if_true]

theorem fixTagsFields_noop (tax : Taxonomy) (fs : Obj)
    (hval : validate_episode_tags (.obj fs) tax = .ok []) :
    fixTagsFields tax fs = (fs, []) := by
  obtain ⟨hkeys, ⟨xf, hgf, hmf, -⟩, ⟨xt, hgt, hmt, -⟩, ⟨xr, hgr, hmr, -⟩, ⟨v, hgv, hvv⟩⟩ :=
    validate_ok_nil_facts fs tax hval
  have hmt' : ∀ x ∈ xt, memberOf x (taxOf tax "Theme") = true := by
    intro x hx
    have : taxOf tax "Theme" = tax.theme := by simp [taxOf]
    rw [this]
    exact hmt x hx
  have hmr' : ∀ x ∈ xr, memberOf x (taxOf tax "Track") = true := by
    intro x hx
    have : taxOf tax "Track" = tax.track := by simp [taxOf]
    rw [this]
    exact hmr x hx
  unfold fixTagsFields
  rw [fixAddNum_noop fs (hkeys "episode_number" (by simp [requiredKeys]))]
  rw [fixAddCat_noop "Format" (fs, []) (hkeys "Format" (by simp [requiredKeys]))]
  rw [fixAddCat_noop "Theme" (fs, []) (hkeys "Theme" (by simp [requiredKeys]))]
  rw [fixAddCat_noop "Track" (fs, []) (hkeys "Track" (by simp [requiredKeys]))]
  rw [fixFormat_noop tax fs [] xf hgf hmf]
  rw [fixCat_noop tax "Theme" fs [] xt hgt hmt']
  rw [fixCat_noop tax "Track" fs [] xr hgr hmr']
  exact fixNum_noop fs [] v hgv hvv

theorem ep_eta_tags (e : Episode) (t : JVal) (h : e.tags = t) : { e with tags := t } = e := by
  cases e
  cases h
  rfl

theorem fixEpisode_noop (tax : Taxonomy) (e e' : Episode) (ns : List FixNote)
    (h : fixEpisode tax e = .ok (e', ns)) : fixEpisode tax e' = .ok (e', []) := by
  unfold fixEpisode at h
  cases hc : e.tags with
  | null =>
      rw [hc] at h
      simp only [] at h
      obtain ⟨he', -⟩ := Prod.mk.injEq .. ▸ Except.ok.inj h
      rw [← he']
      unfold fixEpisode
      simp only [hc]
  | obj fs =>
      rw [hc] at h
      simp only [] at h
      have hne := fixTagsFields_ne_nil tax fs
      generalize hq : fixTagsFields tax fs = q at h hne
      obtain ⟨qf, qn⟩ := q
      have hqne : qf ≠ [] := hne
      rw [ne_nil_isEmpty_false _ hqne] at h
      simp only [Bool.false_eq_true, if_false] at h
      cases hv : validate_episode_tags (.obj qf) tax with
      | error m => simp only [hv] at h; exact Except.noConfusion h
      | ok errs =>
          simp only [hv] at h
          cases errs with
          | nil =>
              obtain ⟨he', -⟩ := Prod.mk.injEq .. ▸ Except.ok.inj h
              have htags : e'.tags = .obj qf := by rw [← he']
              have hnoop := fixTagsFields_noop tax qf hv
              unfold fixEpisode
              simp only [htags, hnoop]
              rw [ne_nil_isEmpty_false _ hqne]
              simp only [Bool.false_eq_true, if_false, hv]
              rw [ep_eta_tags e' (.obj qf) htags]
          | cons v vs =>
              obtain ⟨he', -⟩ := Prod.mk.injEq .. ▸ Except.ok.inj h
              have htags : e'.tags = JVal.null := by rw [← he']
              unfold fixEpisode
              simp only [htags]
  | bool b => rw [hc] at h; cases h
  | int n => rw [hc] at h; cases h
  | float l => rw [hc] at h; cases h
  | str s => rw [hc] at h; cases h
  | arr xs => rw [hc] at h; cases h

theorem fixStoreGo_idem (tax : Taxonomy) (st : EpStore) :
    ∀ st' n made, fixStoreGo tax st = .ok (st', n, made) →
      fixStoreGo tax st' = .ok (st', 0, []) := by
  induction st with
  | nil =>
      intro st' n made h
      simp only [fixStoreGo] at h
      obtain ⟨h1, -⟩ := Prod.mk.injEq .. ▸ Except.ok.inj h
      rw [← h1]
      rfl
  | cons p rest ih =>
      intro st' n made h
      obtain ⟨g0, e0⟩ := p
      simp only [fixStoreGo] at h
      cases hfe : fixEpisode tax e0 with
      | error m => simp only [hfe] at h; exact Except.noConfusion h
      | ok q =>
          obtain ⟨e0', ns⟩ := q
          simp only [hfe] at h
          cases hgo : fixStoreGo tax rest with
          | error m => simp only [hgo] at h; exact Except.noConfusion h
          | ok t =>
              obtain ⟨rest', n', made'⟩ := t
              simp only [hgo] at h
              have hfe2 : fixEpisode tax e0' = .ok (e0', []) :=
                fixEpisode_noop tax e0 e0' ns hfe
              have hgo2 : fixStoreGo tax rest' = .ok (rest', 0, []) := ih rest' n' made' hgo
              by_cases hns : ns.isEmpty
              · rw [if_pos hns] at h
                obtain ⟨h1, -⟩ := Prod.mk.injEq .. ▸ Except.ok.inj h
                rw [← h1]
                simp [fixStoreGo, hfe2, hgo2]
              · rw [if_neg hns] at h
                obtain ⟨h1, -⟩ := Prod.mk.injEq .. ▸ Except.ok.inj h
                rw [← h1]
                simp [fixStoreGo, hfe2, hgo2]

/-- C1: after any run of the Repair operation (`fix`) that completes
(returns instead of raising), every episode in the resulting store whose
`tags` field is non-absent validates cleanly: `validate_episode_tags`
returns the empty violation list.  No episode is left with a
partially-invalid tag assignment — irreparable assignments were reset to
absent by the deletion step. -/
theorem fix_validity (tax : Taxonomy) (st st' : EpStore) (n : Nat)
    (made : List (String × List FixNote)) (h : fixStore tax st = .ok (st', n, made)) :
    ∀ g e', (g, e') ∈ st' → e'.tags ≠ JVal.null →
      validate_episode_tags e'.tags tax = .ok [] :=
  fixStoreGo_validity tax st st' n made h

/-- Store for the C1/C2 witnesses: one episode with a repairable-but-
ultimately-deleted assignment (the spec scenario: Format `["Bogus"]`,
Theme `[]`, Track `["Roman Track"]`, episode_number `"3"`) and one with a
fully valid assignment. -/
def c1Ep : Episode :=
  { guid := "g-sc", title := "T", description := "d", published_date := "2024-03-01",
    audio_url := none, cleaned_description := some "c",
    tags := .obj [("Format", .arr [.str "Bogus"]), ("Theme", .arr []),
                  ("Track", .arr [.str "Roman Track"]), ("episode_number", .str "3")],
    ingested_at := "t0", cleaned_at := some "t1", tagged_at := some "t2" }

/-- The C1 scenario episode after repair: tags and their timestamp reset
to absent, since Theme stayed empty after the fixes. -/
def c1EpFixed : Episode := { c1Ep with tags := JVal.null, tagged_at := none }

theorem fix_validity_witness :
    fixStore defaultTaxonomy [("g-sc", c1Ep), ("g-jun", exJun)] =
      .ok ([("g-sc", c1EpFixed), ("g-jun", exJun)], 1,
           [("T", [FixNote.deletedAllTags [Violation.cannotBeEmpty "Theme"]])]) ∧
    (∀ g e', (g, e') ∈ [("g-sc", c1EpFixed), ("g-jun", exJun)] → e'.tags ≠ JVal.null →
      validate_episode_tags e'.tags defaultTaxonomy = .ok []) :=
  ⟨rfl, fix_validity defaultTaxonomy [("g-sc", c1Ep), ("g-jun", exJun)]
    [("g-sc", c1EpFixed), ("g-jun", exJun)] 1
    [("T", [FixNote.deletedAllTags [Violation.cannotBeEmpty "Theme"]])] rfl⟩

/-- C2: the Repair operation is idempotent.  Whenever a run of `fix`
completes, turning store `st` into `st'`, a second run on `st'` returns
`st'` itself unchanged (so no episode's `tags` field changes), reports
`fixed_count = 0` and records no corrections. -/
theorem fix_idempotent (tax : Taxonomy) (st st' : EpStore) (n : Nat)
    (made : List (String × List FixNote)) (h : fixStore tax st = .ok (st', n, made)) :
    fixStore tax st' = .ok (st', 0, []) :=
  fixStoreGo_idem tax st st' n made h

theorem fix_idempotent_witness :
    fixStore defaultTaxonomy [("g-sc", c1Ep), ("g-jun", exJun)] =
      .ok ([("g-sc", c1EpFixed), ("g-jun", exJun)], 1,
           [("T", [FixNote.deletedAllTags [Violation.cannotBeEmpty "Theme"]])]) ∧
    fixStore defaultTaxonomy [("g-sc", c1EpFixed), ("g-jun", exJun)] =
      .ok ([("g-sc", c1EpFixed), ("g-jun", exJun)], 0, []) :=
  ⟨rfl, fix_idempotent defaultTaxonomy [("g-sc", c1Ep), ("g-jun", exJun)]
    [("g-sc", c1EpFixed), ("g-jun", exJun)] 1
    [("T", [FixNote.deletedAllTags [Violation.cannotBeEmpty "Theme"]])] rfl⟩
